import Mathlib

/-!
Verification of the cargo-monorepo release orchestration engine.

This file gives a shallow embedding of the parts of the program that the
verified properties talk about: the workspace dependency sort
(src/cargo.rs), the publish-candidate filter and ordered publish list
(src/release/context.rs), the four version-validation checks
(src/release/step/version.rs), configuration validation (src/config.rs),
the step pipeline (src/release/mod.rs and src/release/step/*), and the
commit shortener (src/utils.rs).

Conventions: package ids are natural numbers; strings stay strings;
fallible Rust code returning anyhow::Result is embedded as Except String;
a Rust panic is embedded as a `none`/`error` outcome where noted.
Machine integers do not overflow in any modelled code path, so Nat is used
throughout.
-/

namespace CargoMonorepo

/-- Package id (cargo_metadata::PackageId). -/
abbrev PkgId := Nat

/-- Semantic version, without pre-release/build metadata (none of the
modelled code paths inspect those). -/
structure Version where
  major : Nat
  minor : Nat
  patch : Nat
deriving DecidableEq

/-- Strict semver order (lexicographic on major, minor, patch). -/
def Version.ltb (a b : Version) : Bool :=
  Nat.blt a.major b.major ||
    (Nat.beq a.major b.major &&
      (Nat.blt a.minor b.minor ||
        (Nat.beq a.minor b.minor && Nat.blt a.patch b.patch)))

/-- Non-strict semver order, used for Rust's `version <= prev_version`. -/
def Version.leb (a b : Version) : Bool :=
  Version.ltb a b || a == b

/-- A single comparator of a semver version requirement.  Modelled from the
spec: the requirement language of the external semver collaborator; only
exact-version comparators (`=x.y.z`) appear in the specified behaviours, so
the embedding restricts comparators to that form.  An empty comparator list
(an empty requirement) matches every version, as in the semver library. -/
inductive Comparator where
  | exact (v : Version)
deriving DecidableEq

/-- Does a single comparator accept a version? -/
def Comparator.check : Comparator → Version → Bool
  | .exact w, v => v == w

/-- A version requirement: a conjunction of comparators. -/
structure VersionReq where
  comparators : List Comparator
deriving DecidableEq

/-- Requirement matching (semver VersionReq::matches): every comparator
must accept the version; the empty requirement matches everything. -/
def VersionReq.matches (r : VersionReq) (v : Version) : Bool :=
  r.comparators.all (fun c => c.check v)

/-- cargo_metadata::DependencyKind (the modelled code only distinguishes
development from the rest). -/
inductive DependencyKind where
  | normal
  | development
  | build
deriving DecidableEq

/-- A declared dependency of a package. -/
structure Dependency where
  name : String
  kind : DependencyKind
  req : VersionReq
deriving DecidableEq

/-- A cargo package, restricted to the fields the modelled code reads.
`publish = none` means publishing is unrestricted; `publish = some l`
is an explicit allow-set of registry names (empty = never publish).
`targets` holds, per build target, the list of target-kind strings. -/
structure Package where
  id : PkgId
  name : String
  version : Version
  dependencies : List Dependency
  publish : Option (List String)
  manifest_path : String
  targets : List (List String)
deriving DecidableEq

/-- A node of the cargo metadata resolve graph: a package id plus the ids
of its resolved dependencies. -/
structure ResolveNode where
  id : PkgId
  dependencies : List PkgId
deriving DecidableEq

/-- The resolve section of cargo metadata. -/
structure Resolve where
  nodes : List ResolveNode
deriving DecidableEq

/-- cargo metadata, restricted to the fields the modelled code reads. -/
structure Metadata where
  packages : List Package
  workspace_members : List PkgId
  resolve : Option Resolve
deriving DecidableEq

/-! ## Workspace dependency sort (src/cargo.rs) -/

/-- The dep_tree map of sort_workspace: resolve nodes restricted to
workspace members.  The Rust code collects these pairs into a HashMap. -/
def depTree (members : List PkgId) (r : Resolve) : List ResolveNode :=
  r.nodes.filter (fun n => members.contains n.id)

/-- Lookup in dep_tree.  HashMap collection keeps the last entry for a
duplicated key, hence the lookup over the reversed list. -/
def depLookup (dt : List ResolveNode) (k : PkgId) : Option (List PkgId) :=
  (dt.reverse.find? (fun n => n.id == k)).map ResolveNode.dependencies

/-- DFS state: the `processed` set (as a list) and the `sorted` output. -/
abbrev SortState := List PkgId × List PkgId

/-- Sequential visiting of a list of package ids, threading the DFS
state and propagating failure (both the dependency loop of
sort_workspace_inner and the top-level member loop of sort_workspace). -/
def visitFold (g : PkgId → SortState → Option SortState) :
    List PkgId → SortState → Option SortState
  | [], st => some st
  | d :: ds, st =>
    match g d st with
    | none => none
    | some st1 => visitFold g ds st1

/-- The function sort_workspace_inner from src/cargo.rs, with explicit
fuel.  Returns `none` when out of fuel or when the Rust indexing
expression dep_tree[pkg_id] would panic (the package id is absent from
the dependency tree); the fuel passed by `sort_workspace` is proven
sufficient (see `visit_fuel_irrelevant`), so `none` at the top level
corresponds exactly to the Rust panic. -/
def visit : Nat → List ResolveNode → PkgId → SortState → Option SortState
  | 0, _, _, _ => none
  | f + 1, dt, pkg, st =>
    if st.1.contains pkg then some st
    else
      match depLookup dt pkg with
      | none => none
      | some deps =>
        match visitFold (fun d st1 => visit f dt d st1)
            (deps.filter fun d => (depLookup dt d).isSome) (pkg :: st.1, st.2) with
        | none => none
        | some st2 => some (st2.1, st2.2 ++ [pkg])

/-- Visiting a list of package ids at a fixed fuel. -/
def visitList (f : Nat) (dt : List ResolveNode) :
    List PkgId → SortState → Option SortState :=
  visitFold (fun d st => visit f dt d st)

/-- The function sort_workspace from src/cargo.rs.  `none` embeds both
the "Failed to resolve workspace deps" error and the indexing panic on a
member missing from the resolve nodes. -/
def sort_workspace (m : Metadata) : Option (List PkgId) :=
  match m.resolve with
  | none => none
  | some r =>
    let dt := depTree m.workspace_members r
    match visitList (dt.length + 1) dt m.workspace_members ([], []) with
    | none => none
    | some st => some st.2

/-! ## Configuration (src/config.rs) -/

/-- Text template (src/template.rs); its rendering engine is an external
collaborator, so only the template text is kept and rendering outcomes
are supplied by the environment (`Ext.render`). -/
structure TextTemplate where
  text : String
deriving DecidableEq

/-- Workspace section of the configuration. -/
structure Workspace where
  root_crate : String
deriving DecidableEq

/-- GitHub section of the configuration. -/
structure GitHub where
  repo : String
deriving DecidableEq

/-- Release-github section of the configuration. -/
structure GithubRelease where
  check_commit_pushed : Bool
  create_tag : Bool
  tag_name_template : TextTemplate
  create_release_page : Bool
  release_page_upload_artifacts : Bool
  release_page_title_template : TextTemplate
  release_page_body_template : TextTemplate
  print_to_stdout : Bool
deriving DecidableEq

/-- Changelog section of the configuration. -/
structure Changelog where
  file : String
  start_marker_template : Option TextTemplate
  end_marker_template : Option TextTemplate
  print_to_stdout : Bool
  allow_empty_changelog : Bool
deriving DecidableEq

/-- Artifacts section of the configuration. -/
structure Artifacts where
  directory : String
  check_not_empty : Bool
deriving DecidableEq

/-- Release section of the configuration. -/
structure Release where
  check_version_raised : Bool
  allow_non_path_dev_dependencies : Bool
  registry : Option String
  publish_interval_seconds : Nat
  github : Option GithubRelease
deriving DecidableEq

/-- The whole configuration file. -/
structure Config where
  workspace : Workspace
  github : Option GitHub
  changelog : Option Changelog
  artifacts : Option Artifacts
  release : Option Release
deriving DecidableEq

/-- Config::validate_release from src/config.rs. -/
def Config.validate_release (c : Config) : Except String Unit :=
  match c.release with
  | none => Except.ok ()
  | some release =>
    if release.registry.isSome && release.check_version_raised then
      Except.error "Querying last released version is not yet supported for custom registries, set release.check_version_raised to false in the config to approve skip of this step"
    else
      match release.github with
      | none => Except.ok ()
      | some release_github =>
        if c.github.isNone then
          Except.error "github.repo should be specified to be able to use release.github"
        else if release_github.release_page_upload_artifacts && c.artifacts.isNone then
          Except.error "artifacts should be specified when release.github.release_page_upload_artifacts is set to true"
        else if release_github.create_release_page && !release_github.create_tag then
          Except.error "github.create_tag should be enabled when github.create_release_page is required"
        else Except.ok ()

/-- Config::validate_changelog from src/config.rs. -/
def Config.validate_changelog (c : Config) : Except String Unit :=
  match c.changelog with
  | none => Except.ok ()
  | some changelog =>
    if changelog.start_marker_template.isSome ^^ changelog.end_marker_template.isSome then
      Except.error "Both changelog_start_pattern and changelog_end_pattern should be specified"
    else Except.ok ()

/-- Config::validate from src/config.rs. -/
def Config.validate (c : Config) : Except String Unit := do
  c.validate_release
  c.validate_changelog

/-! ## Release context (src/release/context.rs) -/

/-- ReleaseContext: the mutable state threaded through pipeline steps.
The GitHub client handle is modelled by a Bool (initialized or not). -/
structure ReleaseContext where
  dry_run : Bool
  nopublish : Bool
  config : Config
  crates_io_token : Option String
  github_token : Option String
  current_commit : Option String
  metadata : Option Metadata
  version : Option Version
  prev_version : Option (Option Version)
  changelog : Option String
  artifacts : Option (List String)
  github_release_tag : Option String
  github_client : Bool

/-- ReleaseContext::new. -/
def ReleaseContext.new (config : Config) (dry_run nopublish : Bool) : ReleaseContext :=
  { dry_run := dry_run
    nopublish := nopublish
    config := config
    crates_io_token := none
    github_token := none
    current_commit := none
    metadata := none
    version := none
    prev_version := none
    changelog := none
    artifacts := none
    github_release_tag := none
    github_client := false }

/-- ReleaseContext::root_crate_name. -/
def ReleaseContext.root_crate_name (ctx : ReleaseContext) : String :=
  ctx.config.workspace.root_crate

/-- ReleaseContext::release_config. -/
def ReleaseContext.release_config (ctx : ReleaseContext) : Except String Release :=
  match ctx.config.release with
  | none => Except.error "release section is missing from the config"
  | some r => Except.ok r

/-- ReleaseContext::github_config. -/
def ReleaseContext.github_config (ctx : ReleaseContext) : Except String GitHub :=
  match ctx.config.github with
  | none => Except.error "github section is missing from the config"
  | some g => Except.ok g

/-- ReleaseContext::release_github_config. -/
def ReleaseContext.release_github_config (ctx : ReleaseContext) : Except String GithubRelease := do
  let r ← ctx.release_config
  match r.github with
  | none => Except.error "release section is missing from the config"
  | some g => Except.ok g

/-- ReleaseContext::artifacts_config. -/
def ReleaseContext.artifacts_config (ctx : ReleaseContext) : Except String Artifacts :=
  match ctx.config.artifacts with
  | none => Except.error "artifacts section is missing from the config"
  | some a => Except.ok a

/-- ReleaseContext::changelog_config. -/
def ReleaseContext.changelog_config (ctx : ReleaseContext) : Except String Changelog :=
  match ctx.config.changelog with
  | none => Except.error "changelog section is missing from the config"
  | some c => Except.ok c

/-- ReleaseContext::current_commit (the accessor, primed to avoid the
field of the same name). -/
def ReleaseContext.current_commit' (ctx : ReleaseContext) : Except String String :=
  match ctx.current_commit with
  | none => Except.error "Current commit is queried yet"
  | some c => Except.ok c

/-- ReleaseContext::cargo_metadata. -/
def ReleaseContext.cargo_metadata (ctx : ReleaseContext) : Except String Metadata :=
  match ctx.metadata with
  | none => Except.error "Cargo metadata is not yet queried"
  | some m => Except.ok m

/-- ReleaseContext::workspace_package_names. -/
def ReleaseContext.workspace_package_names (ctx : ReleaseContext) : Except String (List String) := do
  let md ← ctx.cargo_metadata
  Except.ok ((md.packages.filter (fun p => md.workspace_members.contains p.id)).map Package.name)

/-- ReleaseContext::packages_to_publish: workspace members whose publish
field is unset or a non-empty allow-set. -/
def ReleaseContext.packages_to_publish (ctx : ReleaseContext) : Except String (List Package) := do
  let md ← ctx.cargo_metadata
  Except.ok (md.packages.filter (fun p =>
    md.workspace_members.contains p.id &&
      (match p.publish with
       | none => true
       | some r => !r.isEmpty)))

/-- ReleaseContext::ordered_packages_to_publish: the dependency sort of the
workspace, each id replaced by the matching publish candidate and skipped
when there is none. -/
def ReleaseContext.ordered_packages_to_publish (ctx : ReleaseContext) : Except String (List Package) := do
  let md ← ctx.cargo_metadata
  match sort_workspace md with
  | none => Except.error "Failed to resolve workspace deps"
  | some sorted =>
    let pkgs ← ctx.packages_to_publish
    Except.ok (sorted.filterMap (fun s => pkgs.find? (fun p => p.id == s)))

/-- ReleaseContext::version (the accessor, primed to avoid the field). -/
def ReleaseContext.version' (ctx : ReleaseContext) : Except String Version :=
  match ctx.version with
  | none => Except.error "Pending version is not queried yet"
  | some v => Except.ok v

/-- ReleaseContext::github_client (the accessor). -/
def ReleaseContext.github_client' (ctx : ReleaseContext) : Except String Unit :=
  if ctx.github_client then Except.ok () else Except.error "GitHub client is not initialized"

/-- ReleaseContext::artifacts (the accessor, primed to avoid the field). -/
def ReleaseContext.artifacts' (ctx : ReleaseContext) : Except String (List String) :=
  match ctx.artifacts with
  | none => Except.error "Artifacts list is empty"
  | some a => Except.ok a

/-- ReleaseContext::github_release_tag (the accessor). -/
def ReleaseContext.github_release_tag' (ctx : ReleaseContext) : Except String String :=
  match ctx.github_release_tag with
  | none => Except.error "GitHub tag is not created yet"
  | some t => Except.ok t

/-! ## Version validation step (src/release/step/version.rs) -/

/-- Rendering of a version for display, used by full_package_name. -/
def versionString (v : Version) : String :=
  toString v.major ++ "." ++ toString v.minor ++ "." ++ toString v.patch

/-- The function full_package_name from version.rs. -/
def full_package_name (p : Package) : String :=
  p.name ++ " v" ++ versionString p.version

/-- The constant CRATES_IO_REGISTRY_NAME. -/
def CRATES_IO_REGISTRY_NAME : String := "crates-io"

/-- Per-package condition of check_registry_consistency (version.rs lines
98-103): publish unset allows everything; an explicit allow-set must
contain the configured registry, or crates-io when none is configured. -/
def publish_allowed (registry : Option String) (p : Package) : Bool :=
  match p.publish with
  | none => true
  | some allowed =>
    match registry with
    | some name => allowed.contains name
    | none => allowed.contains CRATES_IO_REGISTRY_NAME

/-- The packages reported by check_registry_consistency.  The Rust loop
prints each offender and raises a flag, continuing to the next package;
the reported set is exactly the violating candidates in order. -/
def registry_violations (registry : Option String) (pkgs : List Package) : List String :=
  (pkgs.filter (fun p => !publish_allowed registry p)).map full_package_name

/-- VaidateVersion::check_registry_consistency. -/
def check_registry_consistency (ctx : ReleaseContext) : Except String Unit := do
  let pkgs ← ctx.packages_to_publish
  let cfg ← ctx.release_config
  if (registry_violations cfg.registry pkgs).isEmpty then Except.ok ()
  else Except.error "Package registry inconsistency detected"

/-- VaidateVersion::check_version_raised.  The registry query
(query_last_released_version, a subprocess call) is passed in as its
outcome: an error, no previously published version, or one. -/
def check_version_raised (version : Version) (query : Except String (Option Version))
    (ctx : ReleaseContext) : Except String ReleaseContext := do
  let cfg ← ctx.release_config
  if !cfg.check_version_raised then Except.ok ctx
  else do
    let prev ← query
    match prev with
    | some prev_version =>
      if version.leb prev_version then
        Except.error "Pending version is lower or equal to already published version"
      else Except.ok { ctx with prev_version := some (some prev_version) }
    | none => Except.ok { ctx with prev_version := some none }

/-- Per-dependency condition of check_dev_dependencies (version.rs lines
61-71): an in-workspace development dependency with a non-empty
requirement is broken. -/
def dev_dep_broken (wsNames : List String) (d : Dependency) : Bool :=
  d.kind == DependencyKind.development && wsNames.contains d.name &&
    !d.req.comparators.isEmpty

/-- The packages reported by check_dev_dependencies. -/
def dev_dependency_violations (wsNames : List String) (pkgs : List Package) : List String :=
  (pkgs.filter (fun p => p.dependencies.any (dev_dep_broken wsNames))).map full_package_name

/-- VaidateVersion::check_dev_dependencies. -/
def check_dev_dependencies (ctx : ReleaseContext) : Except String Unit := do
  let cfg ← ctx.release_config
  if cfg.allow_non_path_dev_dependencies then Except.ok ()
  else do
    let pkgs ← ctx.packages_to_publish
    let wsNames ← ctx.workspace_package_names
    if (dev_dependency_violations wsNames pkgs).isEmpty then Except.ok ()
    else Except.error "Detected invalid dev dependencies: version field should not be specified for in-workspace dev-dependencies"

/-- Per-package condition of check_version_consistency (version.rs lines
131-161): the package version must equal the pending version, and every
dependency (of any kind) on a workspace package must have a requirement
matching the pending version. -/
def version_inconsistent (version : Version) (wsNames : List String) (p : Package) : Bool :=
  p.version != version ||
    p.dependencies.any (fun d => wsNames.contains d.name && !d.req.matches version)

/-- The packages reported by check_version_consistency.  A package failing
both the own-version check and the dependency check is reported once (the
Rust loop continues after the first diagnosis). -/
def version_consistency_violations (version : Version) (wsNames : List String)
    (pkgs : List Package) : List String :=
  (pkgs.filter (version_inconsistent version wsNames)).map full_package_name

/-- VaidateVersion::check_version_consistency. -/
def check_version_consistency (version : Version) (ctx : ReleaseContext) : Except String Unit := do
  let pkgs ← ctx.packages_to_publish
  let wsNames ← ctx.workspace_package_names
  if (version_consistency_violations version wsNames pkgs).isEmpty then Except.ok ()
  else Except.error "Detected version inconsistency in crates"

/-- VaidateVersion::execute (version.rs lines 184-192): the four checks in
sequence, each behind the question-mark operator. -/
def VaidateVersion.execute (query : Except String (Option Version))
    (ctx : ReleaseContext) : Except String ReleaseContext := do
  let version ← ctx.version'
  check_registry_consistency ctx
  let ctx ← check_version_raised version query ctx
  check_dev_dependencies ctx
  check_version_consistency version ctx
  Except.ok ctx

/-- The version-consistency property as the spec words it in claim C3:
candidate versions equal the pending version and every in-workspace
NON-DEVELOPMENT dependency requirement matches the pending version.
Kept for comparison against the implementation, which does not exempt
development dependencies. -/
def specVersionConsistentNonDev (version : Version) (wsNames : List String)
    (pkgs : List Package) : Bool :=
  pkgs.all (fun p => p.version == version &&
    p.dependencies.all (fun d =>
      !wsNames.contains d.name || d.kind == DependencyKind.development ||
        d.req.matches version))

/-- The registry-consistency criterion as claim C7 words it: the allow-set,
or the implicit allow-set holding exactly the crates-io name when unset,
must contain the target registry name (crates-io when none configured).
Kept for comparison against the implementation, where an unset allow-set
permits every registry. -/
def specRegistryAllowed (registry : Option String) (p : Package) : Bool :=
  (p.publish.getD [CRATES_IO_REGISTRY_NAME]).contains (registry.getD CRATES_IO_REGISTRY_NAME)

/-! ## Commit shortening (src/utils.rs) -/

/-- Rust str::is_char_boundary on a byte string: the end of the string, or
a byte that is not a UTF-8 continuation byte. -/
def isCharBoundary (bs : List Nat) (i : Nat) : Bool :=
  i == bs.length ||
    (match bs[i]? with
     | some b => Nat.blt b 0x80 || Nat.ble 0xC0 b
     | none => false)

/-- Rust byte slicing of a string, \x7bcommit\x7d[0..j]: defined when j is at
most the byte length and lands on a character boundary; any other input
panics (`none`). -/
def byteSliceTo (bs : List Nat) (j : Nat) : Option (List Nat) :=
  if isCharBoundary bs j then some (bs.take j) else none

/-- The function shorten_commit from src/utils.rs: the slice [0..7] taken
unconditionally. -/
def shorten_commit (commit : List Nat) : Option (List Nat) :=
  byteSliceTo commit 7

/-! ## Step pipeline (src/release/mod.rs and src/release/step/) -/

/-- The step kinds assembled by ReleaseExecutor::build_steps. -/
inductive Step where
  | init
  | collectArtifacts
  | captureChangelog
  | validateCommitPushed
  | vaidateVersion
  | cargoPublishValidate
  | cargoPublishReal
  | createTagOnGithub
  | createGithubRelease
deriving DecidableEq

/-- Observable external side effects of pipeline steps.  Read-only
operations (metadata queries, status lookups) are not effects. -/
inductive Effect where
  | cargoPublish (manifest : String) (dryRun : Bool)
  | createTagRef (tag : String)
  | createReleasePage (tag : String)
  | uploadAsset (file : String)
deriving DecidableEq

/-- Outcomes of the external collaborators (environment, subprocesses,
file system, template engine, GitHub API), fixed for one run. -/
structure Ext where
  registryToken : Option String
  githubToken : Option String
  gitInstalled : Bool
  currentCommit : Except String String
  metadataResult : Except String Metadata
  queryVersion : Except String (Option Version)
  artifactsDir : Option (List String)
  changelogResult : Except String String
  render : TextTemplate → Except String String
  publishResult : String → Bool → Bool
  createRefOk : Bool
  createReleaseOk : Bool
  commitStatusOk : Bool
  uploadOk : String → Bool

/-- ReleaseExecutor::build_steps (src/release/mod.rs lines 45-90). -/
def build_steps (cfg : Config) (dry_run nopublish : Bool) : Except String (List Step) := do
  let steps := [Step.init]
  let steps := steps ++ (if cfg.artifacts.isSome then [Step.collectArtifacts] else [])
  let steps := steps ++ (if cfg.changelog.isSome then [Step.captureChangelog] else [])
  let rel ←
    match cfg.release with
    | none => Except.error "release section is missing from the config"
    | some r => Except.ok r
  let steps := steps ++
    (match rel.github with
     | some g => if g.check_commit_pushed then [Step.validateCommitPushed] else []
     | none => [])
  let steps := steps ++ [Step.vaidateVersion, Step.cargoPublishValidate]
  let steps := steps ++ (if !(dry_run || nopublish) then [Step.cargoPublishReal] else [])
  let steps := steps ++
    (match rel.github with
     | some g =>
       (if g.create_tag then [Step.createTagOnGithub] else []) ++
         (if g.create_release_page then [Step.createGithubRelease] else [])
     | none => [])
  Except.ok steps

/-- Init::execute: token acquisition, git state, cargo metadata and the
pending version of the root crate. -/
def execInit (ctx : ReleaseContext) (ext : Ext) : Except String ReleaseContext × List Effect :=
  (do
    let _cfg ← ctx.release_config
    let tok ←
      match ext.registryToken with
      | some t => Except.ok t
      | none => Except.error "Crate registry token is missing"
    let ctx := { ctx with crates_io_token := some tok }
    let ctx ←
      if ctx.config.github.isSome then
        match ext.githubToken with
        | some t => Except.ok { ctx with github_token := some t, github_client := true }
        | none => Except.error "GitHub token is missing"
      else Except.ok ctx
    let ctx ←
      if ext.gitInstalled then Except.ok ctx else Except.error "git is missing"
    let commit ← ext.currentCommit
    let ctx := { ctx with current_commit := some commit }
    let md ← ext.metadataResult
    let root ←
      match md.packages.find? (fun p => p.name == ctx.root_crate_name) with
      | some p => Except.ok p
      | none => Except.error "Failed to find root crate in workspace"
    Except.ok { ctx with metadata := some md, version := some root.version }, [])

/-- CollectArtifacts::execute.  The directory listing is external:
`none` stands for a missing folder (or a read error). -/
def execCollectArtifacts (ctx : ReleaseContext) (ext : Ext) :
    Except String ReleaseContext × List Effect :=
  (do
    let acfg ← ctx.artifacts_config
    match ext.artifactsDir with
    | none => Except.error "Artifacts folder does not exist"
    | some entries =>
      if acfg.check_not_empty && entries.isEmpty then
        Except.error "Artifacts folder is empty"
      else Except.ok { ctx with artifacts := some entries }, [])

/-- CaptureChangelog::execute.  The marker extraction is the out-of-scope
changelog collaborator; its outcome is `ext.changelogResult`. -/
def execCaptureChangelog (ctx : ReleaseContext) (ext : Ext) :
    Except String ReleaseContext × List Effect :=
  (do
    let _ccfg ← ctx.changelog_config
    let text ← ext.changelogResult
    Except.ok { ctx with changelog := some text }, [])

/-- ValidateCommitPushedToGithub::execute: a read-only status lookup. -/
def execValidateCommitPushed (ctx : ReleaseContext) (ext : Ext) :
    Except String ReleaseContext × List Effect :=
  (do
    let _repo ← ctx.github_config
    let _commit ← ctx.current_commit'
    let _ ← ctx.github_client'
    if ext.commitStatusOk then Except.ok ctx
    else Except.error "Current commit is missing in the GitHub remote", [])

/-- The validation-mode loop of CargoPublish::publish: bin crates are
skipped with a warning, others get a dry-run publish that must succeed. -/
def publishDryLoop (ctx : ReleaseContext) (ext : Ext) :
    List Package → Except String ReleaseContext × List Effect
  | [] => (Except.ok ctx, [])
  | p :: ps =>
    if p.targets.any (fun kinds => kinds.contains "bin") then
      publishDryLoop ctx ext ps
    else
      let eff := Effect.cargoPublish p.manifest_path true
      if ext.publishResult p.manifest_path true then
        let (res, effs) := publishDryLoop ctx ext ps
        (res, eff :: effs)
      else (Except.error "Cargo publish failed", [eff])

/-- The real-mode loop of CargoPublish::publish (the inter-publish delay
has no observable effect here). -/
def publishRealLoop (ctx : ReleaseContext) (ext : Ext) :
    List Package → Except String ReleaseContext × List Effect
  | [] => (Except.ok ctx, [])
  | p :: ps =>
    let eff := Effect.cargoPublish p.manifest_path false
    if ext.publishResult p.manifest_path false then
      let (res, effs) := publishRealLoop ctx ext ps
      (res, eff :: effs)
    else (Except.error "Cargo publish failed", [eff])

/-- CargoPublish::execute (validate flag true for the always-included
validation pass, false for the real publish step). -/
def execCargoPublish (validate : Bool) (ctx : ReleaseContext) (ext : Ext) :
    Except String ReleaseContext × List Effect :=
  if ctx.dry_run && !validate then
    (Except.error "BUG: CargoPublish should not be called in non-validate mode when dry-run is specified", [])
  else
    match ctx.ordered_packages_to_publish with
    | Except.error e => (Except.error e, [])
    | Except.ok ordered =>
      match ctx.release_config with
      | Except.error e => (Except.error e, [])
      | Except.ok _rcfg =>
        if ctx.dry_run || validate then publishDryLoop ctx ext ordered
        else publishRealLoop ctx ext ordered

/-- CreateTagOnGithub::execute: render the tag, record it in the context,
then (outside dry-run only) create the ref on GitHub. -/
def execCreateTag (ctx : ReleaseContext) (ext : Ext) :
    Except String ReleaseContext × List Effect :=
  match (do
      let _v ← ctx.version'
      let gcfg ← ctx.release_github_config
      let tag ← ext.render gcfg.tag_name_template
      let _repo ← ctx.github_config
      let _commit ← ctx.current_commit'
      Except.ok tag : Except String String) with
  | Except.error e => (Except.error e, [])
  | Except.ok tag =>
    let ctx := { ctx with github_release_tag := some tag }
    if ctx.dry_run then (Except.ok ctx, [])
    else
      match ctx.github_client' with
      | Except.error e => (Except.error e, [Effect.createTagRef tag])
      | Except.ok _ =>
        if ext.createRefOk then (Except.ok ctx, [Effect.createTagRef tag])
        else (Except.error "Failed to create new tag in GitHub repo", [Effect.createTagRef tag])

/-- The asset upload loop of CreateGithubRelease::execute. -/
def uploadLoop (ctx : ReleaseContext) (ext : Ext) :
    List String → Except String ReleaseContext × List Effect
  | [] => (Except.ok ctx, [])
  | f :: fs =>
    let eff := Effect.uploadAsset f
    if ext.uploadOk f then
      let (res, effs) := uploadLoop ctx ext fs
      (res, eff :: effs)
    else (Except.error "Failed to upload asset", [eff])

/-- CreateGithubRelease::execute: render title and body, then (outside
dry-run only) create the release page and upload artifacts. -/
def execCreateRelease (ctx : ReleaseContext) (ext : Ext) :
    Except String ReleaseContext × List Effect :=
  match (do
      let _v ← ctx.version'
      let gcfg ← ctx.release_github_config
      let _title ← ext.render gcfg.release_page_title_template
      let _body ← ext.render gcfg.release_page_body_template
      let _repo ← ctx.github_config
      let tag ← ctx.github_release_tag'
      Except.ok (gcfg, tag) : Except String (GithubRelease × String)) with
  | Except.error e => (Except.error e, [])
  | Except.ok (gcfg, tag) =>
    if ctx.dry_run then (Except.ok ctx, [])
    else
      match ctx.github_client' with
      | Except.error e => (Except.error e, [])
      | Except.ok _ =>
        let eff := Effect.createReleasePage tag
        if !ext.createReleaseOk then
          (Except.error "Failed to create GitHub release", [eff])
        else if gcfg.release_page_upload_artifacts then
          match ctx.artifacts' with
          | Except.error e => (Except.error e, [eff])
          | Except.ok arts =>
            if arts.isEmpty then (Except.ok ctx, [eff])
            else
              let (res, effs) := uploadLoop ctx ext arts
              (res, eff :: effs)
        else (Except.ok ctx, [eff])

/-- Dispatch of ReleaseStep::execute over the step kinds. -/
def stepExec (s : Step) (ctx : ReleaseContext) (ext : Ext) :
    Except String ReleaseContext × List Effect :=
  match s with
  | Step.init => execInit ctx ext
  | Step.collectArtifacts => execCollectArtifacts ctx ext
  | Step.captureChangelog => execCaptureChangelog ctx ext
  | Step.validateCommitPushed => execValidateCommitPushed ctx ext
  | Step.vaidateVersion => (VaidateVersion.execute ext.queryVersion ctx, [])
  | Step.cargoPublishValidate => execCargoPublish true ctx ext
  | Step.cargoPublishReal => execCargoPublish false ctx ext
  | Step.createTagOnGithub => execCreateTag ctx ext
  | Step.createGithubRelease => execCreateRelease ctx ext

/-- ReleaseExecutor::execute: run the steps strictly in order, stopping at
the first failure, accumulating the effects performed so far. -/
def runSteps (ext : Ext) : List Step → ReleaseContext →
    Except String ReleaseContext × List Effect
  | [], ctx => (Except.ok ctx, [])
  | s :: ss, ctx =>
    match stepExec s ctx ext with
    | (Except.error e, effs) => (Except.error e, effs)
    | (Except.ok ctx', effs) =>
      let (res, effs') := runSteps ext ss ctx'
      (res, effs ++ effs')

/-- The release subcommand end to end (main.rs run after config parsing,
Command::run, ReleaseExecutor::execute): validate the configuration, then
build and run the pipeline.  dry_run is the negation of the confirm
flag. -/
def run (cfg : Config) (confirm nopublish : Bool) (ext : Ext) :
    Except String ReleaseContext × List Effect :=
  match cfg.validate with
  | Except.error e => (Except.error e, [])
  | Except.ok _ =>
    match build_steps cfg (!confirm) nopublish with
    | Except.error e => (Except.error e, [])
    | Except.ok steps => runSteps ext steps (ReleaseContext.new cfg (!confirm) nopublish)

/-- The steps the spec calls validation steps: everything except the real
publish and the tag/release-page side-effect steps. -/
def isValidationStep : Step → Bool
  | Step.init => true
  | Step.collectArtifacts => true
  | Step.captureChangelog => true
  | Step.validateCommitPushed => true
  | Step.vaidateVersion => true
  | Step.cargoPublishValidate => true
  | Step.cargoPublishReal => false
  | Step.createTagOnGithub => false
  | Step.createGithubRelease => false

/-- Effects that dry-run mode must never perform: a real (non-dry-run)
cargo publish, tag creation, release-page creation, asset upload. -/
def isForbiddenInDryRun : Effect → Bool
  | Effect.cargoPublish _ dryRun => !dryRun
  | Effect.createTagRef _ => true
  | Effect.createReleasePage _ => true
  | Effect.uploadAsset _ => true

/-- The pass/fail outcome of one step, with the (mode-dependent) context
payload erased. -/
def stepResult (s : Step) (ctx : ReleaseContext) (ext : Ext) : Except String Unit :=
  (stepExec s ctx ext).1.map (fun _ => ())

/-! ## Graph predicates for the dependency sort -/

/-- In-workspace dependency edge as traversed by sort_workspace_inner:
`a` has a dep_tree entry listing `b`, and `b` has a dep_tree entry of its
own (edges point only at other workspace members). -/
def Edge (dt : List ResolveNode) (a b : PkgId) : Prop :=
  ∃ deps, depLookup dt a = some deps ∧ b ∈ deps ∧ (depLookup dt b).isSome = true

/-- Acyclicity of the in-workspace dependency graph. -/
def Acyclic (dt : List ResolveNode) : Prop :=
  ∀ a, ¬ Relation.TransGen (Edge dt) a a

/-- Element `b` occurs at a position strictly before an occurrence of
`a`. -/
def Before (l : List PkgId) (b a : PkgId) : Prop :=
  ∃ i j : Nat, i < j ∧ l[i]? = some b ∧ l[j]? = some a

/-- Shape of one completed DFS call: the sorted output grows by a block Δ
of fresh dep_tree keys, and the processed set grows by exactly the same
block. -/
def Grows (dt : List ResolveNode) (st st' : SortState) : Prop :=
  ∃ Δ : List PkgId,
    st'.2 = st.2 ++ Δ ∧
    (∀ x, x ∈ st'.1 ↔ (x ∈ st.1 ∨ x ∈ Δ)) ∧
    (∀ x ∈ Δ, x ∉ st.1 ∧ (depLookup dt x).isSome = true) ∧
    Δ.Nodup

/-- Ordering invariant of the DFS state: the sorted list sits inside the
processed set, and every in-workspace dependency of a sorted package is
either already placed before it or still open on the DFS stack (processed
but unsorted) with a dependency path back to it. -/
def Inv (dt : List ResolveNode) (st : SortState) : Prop :=
  (∀ x ∈ st.2, x ∈ st.1) ∧
  ∀ a ∈ st.2, ∀ b, Edge dt a b →
    Before st.2 b a ∨ (b ∈ st.1 ∧ b ∉ st.2 ∧ Relation.TransGen (Edge dt) b a)

/-- Every package currently open on the DFS stack reaches `pkg` through
dependency edges. -/
def StackReaches (dt : List ResolveNode) (st : SortState) (pkg : PkgId) : Prop :=
  ∀ x ∈ st.1, x ∉ st.2 → Relation.ReflTransGen (Edge dt) x pkg

/-- Number of dep_tree entries whose key is still unprocessed; the fuel
bound of the DFS. -/
def keyBound (dt : List ResolveNode) (processed : List PkgId) : Nat :=
  (dt.filter (fun n => !processed.contains n.id)).length

/-! ## Concrete inputs used by witnesses and counterexamples -/

/-- Two-member workspace, one dependency edge (1 depends on 2). -/
def mdChain : Metadata :=
  { packages := []
    workspace_members := [1, 2]
    resolve := some ⟨[⟨1, [2]⟩, ⟨2, []⟩]⟩ }

/-- Two-member workspace with a dependency cycle between 1 and 2. -/
def mdCycle : Metadata :=
  { packages := []
    workspace_members := [1, 2]
    resolve := some ⟨[⟨1, [2]⟩, ⟨2, [1]⟩]⟩ }

/-- Minimal configuration with no optional sections. -/
def cfgBase : Config :=
  { workspace := ⟨"root"⟩, github := none, changelog := none,
    artifacts := none, release := none }

/-- A release section with the version-raise check enabled and no custom
registry. -/
def relRaise : Release :=
  { check_version_raised := true, allow_non_path_dev_dependencies := true,
    registry := none, publish_interval_seconds := 30, github := none }

/-- A release section with all optional checks disabled/defaulted and no
custom registry. -/
def relPlain : Release :=
  { check_version_raised := false, allow_non_path_dev_dependencies := true,
    registry := none, publish_interval_seconds := 30, github := none }

/-- A release section configured for a custom registry. -/
def relCustom : Release :=
  { check_version_raised := false, allow_non_path_dev_dependencies := true,
    registry := some "custom", publish_interval_seconds := 30, github := none }

/-- A release section with a custom registry and the version-raise check
both set (the combination the configuration validator rejects). -/
def relCustomRaise : Release :=
  { check_version_raised := true, allow_non_path_dev_dependencies := true,
    registry := some "custom", publish_interval_seconds := 30, github := none }

/-- A publishable root package at version 1.2.0. -/
def pkgRoot : Package :=
  { id := 1, name := "root", version := ⟨1, 2, 0⟩, dependencies := [],
    publish := none, manifest_path := "root/Cargo.toml", targets := [["lib"]] }

/-- A package excluded from publishing by an explicit empty allow-set. -/
def pkgInternal : Package :=
  { id := 2, name := "internal", version := ⟨1, 2, 0⟩, dependencies := [],
    publish := some [], manifest_path := "internal/Cargo.toml", targets := [["lib"]] }

/-- An in-workspace development dependency on the root crate pinned to
version 1.1.0. -/
def depDevPinned : Dependency :=
  { name := "root", kind := DependencyKind.development,
    req := ⟨[Comparator.exact ⟨1, 1, 0⟩]⟩ }

/-- A library at the pending version whose only inconsistency is the
pinned development dependency on the root crate. -/
def pkgLibDevPinned : Package :=
  { id := 2, name := "lib", version := ⟨1, 2, 0⟩, dependencies := [depDevPinned],
    publish := none, manifest_path := "lib/Cargo.toml", targets := [["lib"]] }

/-- A package whose allow-set does not include the crates-io registry. -/
def pkgOtherRegistry : Package :=
  { id := 1, name := "root", version := ⟨1, 0, 0⟩, dependencies := [],
    publish := some ["other-registry"], manifest_path := "root/Cargo.toml",
    targets := [["lib"]] }

/-- Workspace of the candidate-filter examples. -/
def mdCandidates : Metadata :=
  { packages := [pkgRoot, pkgInternal]
    workspace_members := [1, 2]
    resolve := some ⟨[⟨1, [2]⟩, ⟨2, []⟩]⟩ }

/-- Workspace of the dev-dependency version-consistency example. -/
def mdDevPinned : Metadata :=
  { packages := [pkgRoot, pkgLibDevPinned]
    workspace_members := [1, 2]
    resolve := some ⟨[⟨1, []⟩, ⟨2, [1]⟩]⟩ }

/-- Workspace with a single package whose registry allow-set is foreign. -/
def mdOtherRegistry : Metadata :=
  { packages := [pkgOtherRegistry]
    workspace_members := [1]
    resolve := some ⟨[⟨1, []⟩]⟩ }

/-- Workspace with a single package that has no publish restriction. -/
def mdUnsetPublish : Metadata :=
  { packages := [pkgRoot]
    workspace_members := [1]
    resolve := some ⟨[⟨1, []⟩]⟩ }

/-- Configuration with a plain release section. -/
def cfgPlain : Config :=
  { workspace := ⟨"root"⟩, github := none, changelog := none,
    artifacts := none, release := some relPlain }

/-- Configuration with the version-raise check enabled. -/
def cfgRaise : Config :=
  { workspace := ⟨"root"⟩, github := none, changelog := none,
    artifacts := none, release := some relRaise }

/-- Configuration targeting a custom registry. -/
def cfgCustom : Config :=
  { workspace := ⟨"root"⟩, github := none, changelog := none,
    artifacts := none, release := some relCustom }

/-- Configuration with custom registry and the raise check together. -/
def cfgCustomRaise : Config :=
  { workspace := ⟨"root"⟩, github := none, changelog := none,
    artifacts := none, release := some relCustomRaise }

/-- Context of the candidate-filter examples. -/
def ctxCandidates : ReleaseContext :=
  { ReleaseContext.new cfgBase true false with metadata := some mdCandidates }

/-- Context of the version-raise examples. -/
def ctxRaise : ReleaseContext :=
  ReleaseContext.new cfgRaise true false

/-- Context of the dev-dependency version-consistency examples. -/
def ctxDevPinned : ReleaseContext :=
  { ReleaseContext.new cfgPlain true false with
      metadata := some mdDevPinned, version := some ⟨1, 2, 0⟩ }

/-- Context in which both the registry check and the version-consistency
check fail: the sole candidate allows only a foreign registry and its
version 1.0.0 differs from the pending version 2.0.0. -/
def ctxTwoFailures : ReleaseContext :=
  { ReleaseContext.new cfgPlain true false with
      metadata := some mdOtherRegistry, version := some ⟨2, 0, 0⟩ }

/-- Context with a custom target registry and one unrestricted package,
on which all four validation checks pass. -/
def ctxCustomUnset : ReleaseContext :=
  { ReleaseContext.new cfgCustom true false with
      metadata := some mdUnsetPublish, version := some ⟨1, 2, 0⟩ }

/-- GitHub release options with commit check, tag and release page all
enabled. -/
def ghRelAll : GithubRelease :=
  { check_commit_pushed := true, create_tag := true,
    tag_name_template := ⟨"v{{version}}"⟩, create_release_page := true,
    release_page_upload_artifacts := true,
    release_page_title_template := ⟨"{{root_crate}} v{{version}}"⟩,
    release_page_body_template := ⟨"{{changelog}}"⟩, print_to_stdout := false }

/-- Release section with all GitHub side-effect steps enabled. -/
def relWithGithub : Release :=
  { check_version_raised := false, allow_non_path_dev_dependencies := true,
    registry := none, publish_interval_seconds := 30, github := some ghRelAll }

/-- Full configuration: artifacts, GitHub commit check, tag creation and
release page all configured. -/
def cfgFull : Config :=
  { workspace := ⟨"root"⟩, github := some ⟨"owner/repo"⟩, changelog := none,
    artifacts := some ⟨"artifacts", true⟩, release := some relWithGithub }

/-- An environment in which every external collaborator fails or is
absent. -/
def extNoop : Ext :=
  { registryToken := none, githubToken := none, gitInstalled := false,
    currentCommit := Except.error "no commit", metadataResult := Except.error "no metadata",
    queryVersion := Except.ok none, artifactsDir := none,
    changelogResult := Except.error "no changelog",
    render := fun _ => Except.error "no render",
    publishResult := fun _ _ => false, createRefOk := false,
    createReleaseOk := false, commitStatusOk := false, uploadOk := fun _ => false }

/-! ## Reduction lemmas for the Except monad -/

@[simp]
theorem except_bind_ok {ε α β : Type} (a : α) (f : α → Except ε β) :
    (Except.ok a >>= f) = f a := rfl

@[simp]
theorem except_bind_error {ε α β : Type} (e : ε) (f : α → Except ε β) :
    ((Except.error e : Except ε α) >>= f) = Except.error e := rfl

/-- Bind on Except written as a match, so that case-splitting tactics can
take the chain apart. -/
theorem except_bind_def {ε α β : Type} (e : Except ε α) (f : α → Except ε β) :
    (e >>= f) = (match e with
                 | Except.ok a => f a
                 | Except.error err => Except.error err) := by
  cases e <;> rfl

/-! ## Lemmas: shape of the DFS -/

theorem visit_zero_eq (dt : List ResolveNode) (pkg : PkgId) (st : SortState) :
    visit 0 dt pkg st = none := rfl

theorem visit_succ_eq (f : Nat) (dt : List ResolveNode) (pkg : PkgId) (st : SortState) :
    visit (f + 1) dt pkg st =
      (if st.1.contains pkg then some st
       else
         match depLookup dt pkg with
         | none => none
         | some deps =>
           match visitList f dt (deps.filter fun d => (depLookup dt d).isSome)
               (pkg :: st.1, st.2) with
           | none => none
           | some st2 => some (st2.1, st2.2 ++ [pkg])) := rfl

theorem visitList_nil_eq (f : Nat) (dt : List ResolveNode) (st : SortState) :
    visitList f dt [] st = some st := rfl

theorem visitList_cons_eq (f : Nat) (dt : List ResolveNode) (d : PkgId)
    (ds : List PkgId) (st : SortState) :
    visitList f dt (d :: ds) st =
      (match visit f dt d st with
       | none => none
       | some st1 => visitList f dt ds st1) := rfl

theorem grows_rfl (dt : List ResolveNode) (st : SortState) : Grows dt st st :=
  ⟨[], by simp, fun x => by simp, by simp, List.nodup_nil⟩

theorem grows_trans {dt : List ResolveNode} {st st' st'' : SortState}
    (h1 : Grows dt st st') (h2 : Grows dt st' st'') : Grows dt st st'' := by
  obtain ⟨d1, hs1, hp1, hf1, hn1⟩ := h1
  obtain ⟨d2, hs2, hp2, hf2, hn2⟩ := h2
  refine ⟨d1 ++ d2, by rw [hs2, hs1, List.append_assoc], ?_, ?_, ?_⟩
  · intro x
    rw [hp2 x, hp1 x]
    simp only [List.mem_append]
    tauto
  · intro x hx
    rcases List.mem_append.mp hx with hx | hx
    · exact hf1 x hx
    · have h := hf2 x hx
      exact ⟨fun hmem => h.1 ((hp1 x).mpr (Or.inl hmem)), h.2⟩
  · rw [List.nodup_append]
    refine ⟨hn1, hn2, ?_⟩
    intro x hx1 hx2
    exact (hf2 x hx2).1 ((hp1 x).mpr (Or.inr hx1))

theorem visit_grows_main (f : Nat) :
    (∀ dt pkg st st', visit f dt pkg st = some st' → Grows dt st st' ∧ pkg ∈ st'.1) ∧
    (∀ dt (l : List PkgId) st st', visitList f dt l st = some st' →
      Grows dt st st' ∧ ∀ d ∈ l, d ∈ st'.1) := by
  induction f with
  | zero =>
    constructor
    · intro dt pkg st st' h
      simp [visit_zero_eq] at h
    · intro dt l st st' h
      cases l with
      | nil =>
        simp only [visitList_nil_eq, Option.some.injEq] at h
        subst h
        exact ⟨grows_rfl dt st, by simp⟩
      | cons d ds =>
        simp [visitList_cons_eq, visit_zero_eq] at h
  | succ f ih =>
    have hvisit : ∀ dt pkg st st', visit (f + 1) dt pkg st = some st' →
        Grows dt st st' ∧ pkg ∈ st'.1 := by
      intro dt pkg st st' h
      simp only [visit_succ_eq] at h
      by_cases hc : st.1.contains pkg
      · rw [if_pos hc] at h
        obtain rfl := Option.some.inj h
        exact ⟨grows_rfl dt st, by simpa using hc⟩
      · rw [if_neg hc] at h
        cases hl : depLookup dt pkg with
        | none => simp [hl] at h
        | some deps =>
          simp only [hl] at h
          cases hv : visitList f dt (deps.filter fun d => (depLookup dt d).isSome)
              (pkg :: st.1, st.2) with
          | none => simp [hv] at h
          | some st2 =>
            simp only [hv] at h
            obtain rfl := Option.some.inj h
            obtain ⟨⟨Δ, hs, hp, hf, hn⟩, _⟩ := ih.2 dt _ _ _ hv
            have hpkg_notin : pkg ∉ st.1 := by simpa using hc
            refine ⟨⟨Δ ++ [pkg], ?_, ?_, ?_, ?_⟩, ?_⟩
            · show st2.2 ++ [pkg] = st.2 ++ (Δ ++ [pkg])
              rw [show st2.2 = st.2 ++ Δ from hs]
              simp
            · intro x
              show x ∈ st2.1 ↔ _
              rw [hp x]
              simp only [List.mem_cons, List.mem_append, List.mem_singleton]
              tauto
            · intro x hx
              rcases List.mem_append.mp hx with hx | hx
              · have hfx := hf x hx
                exact ⟨fun hmem => hfx.1 (List.mem_cons_of_mem _ hmem), hfx.2⟩
              · rw [List.mem_singleton] at hx
                subst hx
                refine ⟨hpkg_notin, ?_⟩
                rw [hl]
                rfl
            · rw [List.nodup_append]
              refine ⟨hn, List.nodup_singleton pkg, ?_⟩
              intro x hx hx2
              rw [List.mem_singleton] at hx2
              subst hx2
              exact (hf x hx).1 (List.mem_cons_self _ _)
            · show pkg ∈ st2.1
              exact (hp pkg).mpr (Or.inl (List.mem_cons_self _ _))
    refine ⟨hvisit, ?_⟩
    intro dt l
    induction l with
    | nil =>
      intro st st' h
      simp only [visitList_nil_eq, Option.some.injEq] at h
      subst h
      exact ⟨grows_rfl dt st, by simp⟩
    | cons d ds ihl =>
      intro st st' h
      simp only [visitList_cons_eq] at h
      cases hv : visit (f + 1) dt d st with
      | none => simp [hv] at h
      | some st1 =>
        simp only [hv] at h
        obtain ⟨hg1, hd1⟩ := hvisit dt d st st1 hv
        obtain ⟨hg2, hd2⟩ := ihl st1 st' h
        refine ⟨grows_trans hg1 hg2, ?_⟩
        intro x hx
        rcases List.mem_cons.mp hx with rfl | hx
        · obtain ⟨Δ2, _, hp2, _, _⟩ := hg2
          exact (hp2 x).mpr (Or.inl hd1)
        · exact hd2 x hx

/-! ## Lemmas: dep_tree lookups and the fuel bound -/

theorem depLookup_isSome_elim {dt : List ResolveNode} {k : PkgId}
    (h : (depLookup dt k).isSome = true) : ∃ n ∈ dt, n.id = k := by
  unfold depLookup at h
  cases hf : dt.reverse.find? (fun n => n.id == k) with
  | none => rw [hf] at h; simp at h
  | some n =>
    have hmem := List.mem_of_find?_eq_some hf
    have hpred := List.find?_some hf
    rw [List.mem_reverse] at hmem
    exact ⟨n, hmem, by simpa using hpred⟩

theorem depTree_key_mem {members : List PkgId} {r : Resolve} {k : PkgId}
    (h : (depLookup (depTree members r) k).isSome = true) : k ∈ members := by
  obtain ⟨n, hn, hid⟩ := depLookup_isSome_elim h
  unfold depTree at hn
  have hmem := List.mem_filter.mp hn
  subst hid
  simpa using hmem.2

theorem keyBound_mono {dt : List ResolveNode} {p1 p2 : List PkgId}
    (h : ∀ x ∈ p1, x ∈ p2) : keyBound dt p2 ≤ keyBound dt p1 := by
  unfold keyBound
  rw [← List.countP_eq_length_filter, ← List.countP_eq_length_filter]
  apply List.countP_mono_left
  intro n _ hpred
  simp only [Bool.not_eq_true'] at hpred ⊢
  cases hcon : p1.contains n.id with
  | false => rfl
  | true =>
    have hmem : n.id ∈ p2 := h n.id (by simpa using hcon)
    have : p2.contains n.id = true := by simpa using hmem
    rw [this] at hpred
    cases hpred

theorem keyBound_cons_node (n0 : ResolveNode) (dt : List ResolveNode) (p : List PkgId) :
    keyBound (n0 :: dt) p = (if p.contains n0.id then 0 else 1) + keyBound dt p := by
  unfold keyBound
  simp only [List.filter]
  cases hc : p.contains n0.id with
  | false => simp [hc]; omega
  | true => simp [hc]

theorem keyBound_cons_lt {dt : List ResolveNode} {processed : List PkgId} {pkg : PkgId}
    (hk : (depLookup dt pkg).isSome = true) (hnp : pkg ∉ processed) :
    keyBound dt (pkg :: processed) < keyBound dt processed := by
  obtain ⟨n, hn, hid⟩ := depLookup_isSome_elim hk
  subst hid
  clear hk
  induction dt with
  | nil => exact absurd hn (List.not_mem_nil n)
  | cons n0 dt ih =>
    rw [keyBound_cons_node, keyBound_cons_node]
    rcases List.mem_cons.mp hn with rfl | hn'
    · have h1 : (n.id :: processed).contains n.id = true := by simp
      have h2 : processed.contains n.id = false := by simpa using hnp
      have hle : keyBound dt (n.id :: processed) ≤ keyBound dt processed :=
        keyBound_mono (fun x hx => List.mem_cons_of_mem _ hx)
      rw [h1, h2]
      norm_num
      omega
    · have hlt : keyBound dt (n.id :: processed) < keyBound dt processed := ih hn'
      have hh : (if (n.id :: processed).contains n0.id then 0 else 1) ≤
          (if processed.contains n0.id then 0 else 1) := by
        cases hc : processed.contains n0.id with
        | false =>
          cases hc2 : (n.id :: processed).contains n0.id <;> simp
        | true =>
          have hmem : n0.id ∈ n.id :: processed :=
            List.mem_cons_of_mem _ (by simpa using hc)
          have hco : (n.id :: processed).contains n0.id = true := by simpa using hmem
          simp [hco, hc]
          intro _
          simpa using hc
      omega

theorem keyBound_nil (dt : List ResolveNode) : keyBound dt [] = dt.length := by
  unfold keyBound
  simp

/-- Fuel irrelevance: above the key bound, the DFS result does not depend
on the fuel; with the fuel used by sort_workspace, a `none` result is
exactly the Rust indexing panic, never fuel exhaustion. -/
theorem visit_fuel_irrelevant (f : Nat) :
    (∀ g dt pkg st, keyBound dt st.1 + 1 ≤ f → keyBound dt st.1 + 1 ≤ g →
      visit f dt pkg st = visit g dt pkg st) ∧
    (∀ g dt (l : List PkgId) st, keyBound dt st.1 + 1 ≤ f → keyBound dt st.1 + 1 ≤ g →
      visitList f dt l st = visitList g dt l st) := by
  induction f with
  | zero =>
    exact ⟨fun g dt pkg st hf => absurd hf (by omega),
           fun g dt l st hf => absurd hf (by omega)⟩
  | succ f ih =>
    have hvisit : ∀ g dt pkg st, keyBound dt st.1 + 1 ≤ f + 1 → keyBound dt st.1 + 1 ≤ g →
        visit (f + 1) dt pkg st = visit g dt pkg st := by
      intro g dt pkg st hf hg
      obtain ⟨g', rfl⟩ : ∃ g', g = g' + 1 := ⟨g - 1, by omega⟩
      rw [visit_succ_eq, visit_succ_eq]
      by_cases hc : st.1.contains pkg
      · rw [if_pos hc, if_pos hc]
      · rw [if_neg hc, if_neg hc]
        cases hl : depLookup dt pkg with
        | none => rfl
        | some deps =>
          have hklt : keyBound dt (pkg :: st.1) < keyBound dt st.1 :=
            keyBound_cons_lt (by rw [hl]; rfl) (by simpa using hc)
          have hb1 : keyBound dt (pkg :: st.1, st.2).1 + 1 ≤ f := by
            show keyBound dt (pkg :: st.1) + 1 ≤ f
            omega
          have hb2 : keyBound dt (pkg :: st.1, st.2).1 + 1 ≤ g' := by
            show keyBound dt (pkg :: st.1) + 1 ≤ g'
            omega
          have heq := ih.2 g' dt (deps.filter fun d => (depLookup dt d).isSome)
            (pkg :: st.1, st.2) hb1 hb2
          simp only [heq]
    refine ⟨hvisit, ?_⟩
    intro g dt l
    induction l with
    | nil => intro st hf hg; rw [visitList_nil_eq, visitList_nil_eq]
    | cons d ds ihl =>
      intro st hf hg
      rw [visitList_cons_eq, visitList_cons_eq]
      rw [hvisit g dt d st hf hg]
      cases hv : visit g dt d st with
      | none => rfl
      | some st1 =>
        have hsub : ∀ x ∈ st.1, x ∈ st1.1 := by
          obtain ⟨⟨Δ, _, hp, _, _⟩, _⟩ := (visit_grows_main g).1 dt d st st1 hv
          exact fun x hx => (hp x).mpr (Or.inl hx)
        have hb : keyBound dt st1.1 ≤ keyBound dt st.1 := keyBound_mono hsub
        exact ihl st1 (by omega) (by omega)

/-- At the fuel chosen by sort_workspace (or any larger fuel), the member
loop computes one and the same result. -/
theorem visitList_fuel_ge (dt : List ResolveNode) (l : List PkgId) (g : Nat)
    (hg : dt.length + 1 ≤ g) :
    visitList g dt l ([], []) = visitList (dt.length + 1) dt l ([], []) := by
  apply (visit_fuel_irrelevant g).2
  · show keyBound dt [] + 1 ≤ g
    rw [keyBound_nil]
    exact hg
  · show keyBound dt [] + 1 ≤ dt.length + 1
    rw [keyBound_nil]

/-- C9: whenever sort_workspace succeeds, the output lists each workspace
member exactly once (it is duplicate-free and has exactly the workspace
member set as elements), with no assumption on the dependency graph. -/
theorem sort_workspace_output_is_member_permutation (m : Metadata) (out : List PkgId)
    (h : sort_workspace m = some out) :
    out.Nodup ∧ ∀ x, x ∈ out ↔ x ∈ m.workspace_members := by
  unfold sort_workspace at h
  cases hr : m.resolve with
  | none => rw [hr] at h; exact absurd h (by simp)
  | some r =>
    simp only [hr] at h
    cases hv : visitList ((depTree m.workspace_members r).length + 1)
        (depTree m.workspace_members r) m.workspace_members ([], []) with
    | none => simp [hv] at h
    | some st =>
      simp only [hv, Option.some.injEq] at h
      subst h
      obtain ⟨⟨Δ, hs, hp, hf, hn⟩, hmemb⟩ := (visit_grows_main _).2 _ _ _ _ hv
      have hout : st.2 = Δ := by simpa using hs
      constructor
      · rw [hout]
        exact hn
      · intro x
        constructor
        · intro hx
          rw [hout] at hx
          exact depTree_key_mem (hf x hx).2
        · intro hx
          have hx1 : x ∈ st.1 := hmemb x hx
          rcases (hp x).mp hx1 with hfalse | hΔ
          · exact absurd hfalse (List.not_mem_nil x)
          · rw [hout]
            exact hΔ

/-- Witness for C9, at a two-member workspace whose dependency graph is a
cycle. -/
theorem sort_workspace_output_is_member_permutation_witness :
    [2, 1].Nodup ∧ ∀ x, x ∈ [2, 1] ↔ x ∈ mdCycle.workspace_members :=
  sort_workspace_output_is_member_permutation mdCycle [2, 1] (by decide)

/-! ## Lemmas: ordering invariant of the DFS -/

theorem stack_eq_of_grows {dt : List ResolveNode} {st st' : SortState}
    (hg : Grows dt st st') :
    ∀ x, (x ∈ st'.1 ∧ x ∉ st'.2) ↔ (x ∈ st.1 ∧ x ∉ st.2) := by
  obtain ⟨Δ, hs, hp, hf, hn⟩ := hg
  intro x
  constructor
  · rintro ⟨hx1, hx2⟩
    rcases (hp x).mp hx1 with hx | hx
    · refine ⟨hx, fun hmem => hx2 ?_⟩
      rw [hs]
      exact List.mem_append.mpr (Or.inl hmem)
    · exact absurd (by rw [hs]; exact List.mem_append.mpr (Or.inr hx)) hx2
  · rintro ⟨hx1, hx2⟩
    refine ⟨(hp x).mpr (Or.inl hx1), fun hmem => ?_⟩
    rw [hs] at hmem
    rcases List.mem_append.mp hmem with hx | hx
    · exact hx2 hx
    · exact (hf x hx).1 hx1

theorem before_append_left {l : List PkgId} {b a : PkgId} (h : Before l b a)
    (l2 : List PkgId) : Before (l ++ l2) b a := by
  obtain ⟨i, j, hij, hib, hja⟩ := h
  have hil : i < l.length := (List.getElem?_eq_some_iff.mp hib).1
  have hjl : j < l.length := (List.getElem?_eq_some_iff.mp hja).1
  exact ⟨i, j, hij, by rw [List.getElem?_append_left hil]; exact hib,
    by rw [List.getElem?_append_left hjl]; exact hja⟩

theorem before_append_self {l : List PkgId} {b a : PkgId} (hb : b ∈ l) :
    Before (l ++ [a]) b a := by
  obtain ⟨i, hi⟩ := List.mem_iff_getElem?.mp hb
  have hil : i < l.length := (List.getElem?_eq_some_iff.mp hi).1
  exact ⟨i, l.length, hil, by rw [List.getElem?_append_left hil]; exact hi,
    List.getElem?_concat_length l a⟩

theorem transGen_of_reflTransGen_ne {r : PkgId → PkgId → Prop} {a b : PkgId}
    (h : Relation.ReflTransGen r a b) (hne : a ≠ b) : Relation.TransGen r a b := by
  rcases h.cases_head with rfl | ⟨c, hac, hcb⟩
  · exact absurd rfl hne
  · exact Relation.TransGen.head' hac hcb

theorem acyclic_of_rank (dt : List ResolveNode) (rank : PkgId → Nat)
    (h : ∀ a b, Edge dt a b → rank b < rank a) : Acyclic dt := by
  have hTG : ∀ a b, Relation.TransGen (Edge dt) a b → rank b < rank a := by
    intro a b htg
    induction htg with
    | single he => exact h _ _ he
    | tail _ he ih => exact lt_trans (h _ _ he) ih
  intro a ha
  exact lt_irrefl _ (hTG a a ha)

theorem edge_elim {dt : List ResolveNode} {a b : PkgId} (h : Edge dt a b) :
    ∃ n ∈ dt, n.id = a ∧ b ∈ n.dependencies := by
  obtain ⟨deps, hl, hb, -⟩ := h
  unfold depLookup at hl
  cases hf : dt.reverse.find? (fun n => n.id == a) with
  | none => rw [hf] at hl; simp at hl
  | some n =>
    rw [hf] at hl
    have hmem := List.mem_of_find?_eq_some hf
    have hpred := List.find?_some hf
    rw [List.mem_reverse] at hmem
    have hdeps : n.dependencies = deps := by simpa using hl
    exact ⟨n, hmem, by simpa using hpred, hdeps ▸ hb⟩

theorem visit_inv_main (f : Nat) :
    (∀ dt pkg st st', visit f dt pkg st = some st' → Acyclic dt → Inv dt st →
      StackReaches dt st pkg → Inv dt st') ∧
    (∀ dt (l : List PkgId) st st', visitList f dt l st = some st' → Acyclic dt →
      Inv dt st → (∀ d ∈ l, StackReaches dt st d) → Inv dt st') := by
  induction f with
  | zero =>
    constructor
    · intro dt pkg st st' h
      simp [visit_zero_eq] at h
    · intro dt l st st' h hacyc hinv hstack
      cases l with
      | nil =>
        simp only [visitList_nil_eq, Option.some.injEq] at h
        subst h
        exact hinv
      | cons d ds => simp [visitList_cons_eq, visit_zero_eq] at h
  | succ f ih =>
    have hvisit : ∀ dt pkg st st', visit (f + 1) dt pkg st = some st' → Acyclic dt →
        Inv dt st → StackReaches dt st pkg → Inv dt st' := by
      intro dt pkg st st' h hacyc hinv hstack
      simp only [visit_succ_eq] at h
      by_cases hc : st.1.contains pkg
      · rw [if_pos hc] at h
        obtain rfl := Option.some.inj h
        exact hinv
      · rw [if_neg hc] at h
        have hpkg_notin : pkg ∉ st.1 := by simpa using hc
        cases hl : depLookup dt pkg with
        | none => simp [hl] at h
        | some deps =>
          simp only [hl] at h
          cases hv : visitList f dt (deps.filter fun d => (depLookup dt d).isSome)
              (pkg :: st.1, st.2) with
          | none => simp [hv] at h
          | some st2 =>
            simp only [hv] at h
            obtain rfl := Option.some.inj h
            obtain ⟨hgrows, hdall⟩ := (visit_grows_main f).2 dt _ _ _ hv
            obtain ⟨Δ, hs, hp, hf2, hn⟩ := hgrows
            have hinv1 : Inv dt (pkg :: st.1, st.2) := by
              obtain ⟨hsub, hmain⟩ := hinv
              refine ⟨fun x hx => List.mem_cons_of_mem _ (hsub x hx), ?_⟩
              intro a ha b hab
              rcases hmain a ha b hab with hbefore | ⟨hb1, hb2, hb3⟩
              · exact Or.inl hbefore
              · exact Or.inr ⟨List.mem_cons_of_mem _ hb1, hb2, hb3⟩
            have hpkg_notin2 : pkg ∉ st.2 := fun hmem => hpkg_notin (hinv.1 pkg hmem)
            have hstack1 : ∀ d ∈ (deps.filter fun d => (depLookup dt d).isSome),
                StackReaches dt (pkg :: st.1, st.2) d := by
              intro d hd
              obtain ⟨hdmem, hdkey⟩ := List.mem_filter.mp hd
              have hedge : Edge dt pkg d := ⟨deps, hl, hdmem, by simpa using hdkey⟩
              intro x hx hx2
              rcases List.mem_cons.mp hx with rfl | hx'
              · exact Relation.ReflTransGen.single hedge
              · exact Relation.ReflTransGen.tail (hstack x hx' hx2) hedge
            have hinv2 := ih.2 dt _ _ _ hv hacyc hinv1 hstack1
            have hstackeq := stack_eq_of_grows ⟨Δ, hs, hp, hf2, hn⟩
            obtain ⟨hsub2, hmain2⟩ := hinv2
            have hpkg_in_st2 : pkg ∈ st2.1 := (hp pkg).mpr (Or.inl (List.mem_cons_self _ _))
            have hpkg_notin_st2sorted : pkg ∉ st2.2 := by
              intro hmem
              rw [hs] at hmem
              rcases List.mem_append.mp hmem with hmem | hmem
              · exact hpkg_notin2 hmem
              · exact (hf2 pkg hmem).1 (List.mem_cons_self _ _)
            constructor
            · intro x hx
              rcases List.mem_append.mp hx with hx | hx
              · exact hsub2 x hx
              · rw [List.mem_singleton] at hx
                subst hx
                exact hpkg_in_st2
            · intro a ha b hab
              show Before (st2.2 ++ [pkg]) b a ∨
                (b ∈ st2.1 ∧ b ∉ st2.2 ++ [pkg] ∧ Relation.TransGen (Edge dt) b a)
              rcases List.mem_append.mp ha with ha | ha
              · rcases hmain2 a ha b hab with hbefore | ⟨hb1, hb2, hb3⟩
                · exact Or.inl (before_append_left hbefore [pkg])
                · by_cases hbp : b = pkg
                  · subst hbp
                    exact absurd (Relation.TransGen.tail hb3 hab) (hacyc _)
                  · refine Or.inr ⟨hb1, ?_, hb3⟩
                    intro hmem
                    rcases List.mem_append.mp hmem with hmem | hmem
                    · exact hb2 hmem
                    · rw [List.mem_singleton] at hmem
                      exact hbp hmem
              · rw [List.mem_singleton] at ha
                subst ha
                have hedge := hab
                obtain ⟨deps', hl', hbdeps, hbkey⟩ := hab
                rw [hl] at hl'
                obtain rfl := Option.some.inj hl'
                have hbfilter : b ∈ deps.filter fun d => (depLookup dt d).isSome :=
                  List.mem_filter.mpr ⟨hbdeps, by simpa using hbkey⟩
                have hb_in_st2 : b ∈ st2.1 := hdall b hbfilter
                by_cases hbsorted : b ∈ st2.2
                · exact Or.inl (before_append_self hbsorted)
                · have hstk := (hstackeq b).mp ⟨hb_in_st2, hbsorted⟩
                  rcases List.mem_cons.mp hstk.1 with rfl | hbst1
                  · exact absurd (Relation.TransGen.single hedge) (hacyc _)
                  · have hrtg := hstack b hbst1 hstk.2
                    have hne : b ≠ a := fun he => hpkg_notin (he ▸ hbst1)
                    have htg : Relation.TransGen (Edge dt) b a :=
                      transGen_of_reflTransGen_ne hrtg hne
                    refine Or.inr ⟨hb_in_st2, ?_, htg⟩
                    intro hmem
                    rcases List.mem_append.mp hmem with hmem | hmem
                    · exact hbsorted hmem
                    · rw [List.mem_singleton] at hmem
                      exact hne hmem
    refine ⟨hvisit, ?_⟩
    intro dt l
    induction l with
    | nil =>
      intro st st' h hacyc hinv hstack
      simp only [visitList_nil_eq, Option.some.injEq] at h
      subst h
      exact hinv
    | cons d ds ihl =>
      intro st st' h hacyc hinv hstack
      simp only [visitList_cons_eq] at h
      cases hv : visit (f + 1) dt d st with
      | none => simp [hv] at h
      | some st1 =>
        simp only [hv] at h
        have hinv1 := hvisit dt d st st1 hv hacyc hinv (hstack d (List.mem_cons_self _ _))
        have hg1 := ((visit_grows_main (f + 1)).1 dt d st st1 hv).1
        have hse := stack_eq_of_grows hg1
        have hstack1 : ∀ d' ∈ ds, StackReaches dt st1 d' := by
          intro d' hd' x hx hx2
          have hx' := (hse x).mp ⟨hx, hx2⟩
          exact hstack d' (List.mem_cons_of_mem _ hd') x hx'.1 hx'.2
        exact ihl st1 st' h hacyc hinv1 hstack1

/-- C1: for a workspace whose in-workspace dependency graph is acyclic,
the sort respects every in-workspace dependency edge: whenever workspace
member a lists workspace member b among its resolved dependencies, b is
placed at a strictly earlier position of the output than a. -/
theorem sort_workspace_respects_dependency_order (m : Metadata) (r : Resolve)
    (out deps : List PkgId) (a b : PkgId)
    (hr : m.resolve = some r)
    (hacyc : Acyclic (depTree m.workspace_members r))
    (hsort : sort_workspace m = some out)
    (ha : a ∈ m.workspace_members) (hb : b ∈ m.workspace_members)
    (hdeps : depLookup (depTree m.workspace_members r) a = some deps)
    (hmem : b ∈ deps) :
    Before out b a := by
  unfold sort_workspace at hsort
  simp only [hr] at hsort
  cases hv : visitList ((depTree m.workspace_members r).length + 1)
      (depTree m.workspace_members r) m.workspace_members ([], []) with
  | none => simp [hv] at hsort
  | some st =>
    simp only [hv, Option.some.injEq] at hsort
    subst hsort
    obtain ⟨⟨Δ, hs, hp, hf2, hn⟩, hmemb⟩ := (visit_grows_main _).2 _ _ _ _ hv
    have hout : st.2 = Δ := by simpa using hs
    have hinv := (visit_inv_main _).2 (depTree m.workspace_members r)
      m.workspace_members ([], []) st hv hacyc
      ⟨fun x hx => absurd hx (List.not_mem_nil x),
       fun x hx => absurd hx (List.not_mem_nil x)⟩
      (fun d _ x hx _ => absurd hx (List.not_mem_nil x))
    have hbkey : (depLookup (depTree m.workspace_members r) b).isSome = true := by
      have hb1 : b ∈ st.1 := hmemb b hb
      rcases (hp b).mp hb1 with hfalse | hΔ
      · exact absurd hfalse (List.not_mem_nil b)
      · exact (hf2 b hΔ).2
    have hedge : Edge (depTree m.workspace_members r) a b := ⟨deps, hdeps, hmem, hbkey⟩
    have ha_out : a ∈ st.2 := by
      have ha1 : a ∈ st.1 := hmemb a ha
      rcases (hp a).mp ha1 with hfalse | hΔ
      · exact absurd hfalse (List.not_mem_nil a)
      · rw [hout]
        exact hΔ
    rcases hinv.2 a ha_out b hedge with hbefore | ⟨hbIn, hbNotSorted, -⟩
    · exact hbefore
    · exfalso
      apply hbNotSorted
      rcases (hp b).mp hbIn with hfalse | hΔ
      · exact absurd hfalse (List.not_mem_nil b)
      · rw [hout]
        exact hΔ

/-- Witness for C1: in the two-member workspace where 1 depends on 2, the
sort places 2 before 1. -/
theorem sort_workspace_respects_dependency_order_witness : Before [2, 1] 2 1 := by
  apply sort_workspace_respects_dependency_order mdChain ⟨[⟨1, [2]⟩, ⟨2, []⟩]⟩
      [2, 1] [2] 1 2
  · rfl
  · apply acyclic_of_rank _ (fun x => 2 - x)
    intro a b he
    obtain ⟨n, hn, hid, hbdep⟩ := edge_elim he
    simp only [depTree, mdChain] at hn
    have : n = ⟨1, [2]⟩ ∨ n = ⟨2, []⟩ := by
      have := List.mem_filter.mp hn
      simpa using this.1
    rcases this with rfl | rfl
    · subst hid
      simp only [List.mem_singleton] at hbdep
      subst hbdep
      norm_num
    · exact absurd hbdep (List.not_mem_nil b)
  · decide
  · decide
  · decide
  · decide
  · decide

/-! ## Commit shortening (C10) -/

/-- C10: shorten_commit yields the first 7 bytes of any input of at least
7 bytes with a character boundary at byte 7, and panics (modelled `none`)
on every input shorter than 7 bytes: the slice is taken without a length
guard. -/
theorem shorten_commit_spec (bs : List Nat) :
    (7 ≤ bs.length → isCharBoundary bs 7 = true → shorten_commit bs = some (bs.take 7)) ∧
    (bs.length < 7 → shorten_commit bs = none) := by
  constructor
  · intro _ hbd
    unfold shorten_commit byteSliceTo
    rw [if_pos hbd]
  · intro hlt
    unfold shorten_commit byteSliceTo
    rw [if_neg]
    intro hbd
    have h2 : bs[7]? = none := by
      apply List.getElem?_eq_none
      omega
    simp [isCharBoundary, h2] at hbd
    omega

/-- Witness for C10: an 8-byte commit string is cut to 7 bytes; a 2-byte
one panics. -/
theorem shorten_commit_spec_witness :
    shorten_commit [97, 98, 99, 100, 101, 102, 103, 104] =
        some [97, 98, 99, 100, 101, 102, 103] ∧
    shorten_commit [97, 98] = none :=
  ⟨(shorten_commit_spec [97, 98, 99, 100, 101, 102, 103, 104]).1 (by decide) (by decide),
   (shorten_commit_spec [97, 98]).2 (by decide)⟩

/-! ## Version ordering -/

theorem Version.not_leb_iff_ltb (a b : Version) : a.leb b = false ↔ b.ltb a = true := by
  obtain ⟨a1, a2, a3⟩ := a
  obtain ⟨b1, b2, b3⟩ := b
  simp [Version.leb, Version.ltb, Nat.blt_eq, Nat.beq_eq, Version.mk.injEq,
    Bool.eq_false_iff, ne_eq]
  omega

/-! ## Version-raise check (C5) -/

/-- C5: with the version-raise check enabled, a previously published
version at least the pending one aborts; a strictly smaller previous
version passes and is recorded; an absent previous version passes and
records the absence (prev_version becomes some none). -/
theorem check_version_raised_spec (ctx : ReleaseContext) (rel : Release)
    (version prev : Version)
    (hrel : ctx.config.release = some rel)
    (henabled : rel.check_version_raised = true) :
    (version.leb prev = true →
      check_version_raised version (Except.ok (some prev)) ctx =
        Except.error "Pending version is lower or equal to already published version") ∧
    (prev.ltb version = true →
      check_version_raised version (Except.ok (some prev)) ctx =
        Except.ok { ctx with prev_version := some (some prev) }) ∧
    (check_version_raised version (Except.ok none) ctx =
      Except.ok { ctx with prev_version := some none }) := by
  have hcfg : ctx.release_config = Except.ok rel := by
    unfold ReleaseContext.release_config
    rw [hrel]
  refine ⟨?_, ?_, ?_⟩
  · intro hle
    simp [check_version_raised, hcfg, henabled, hle]
  · intro hgt
    have hle : version.leb prev = false := (Version.not_leb_iff_ltb version prev).mpr hgt
    simp [check_version_raised, hcfg, henabled, hle]
  · simp [check_version_raised, hcfg, henabled]

/-- Witness for C5: previous 1.0.0 with pending 1.0.0 fails, pending
1.1.0 passes recording the previous version, and an absent previous
version passes recording the absence. -/
theorem check_version_raised_spec_witness :
    check_version_raised ⟨1, 0, 0⟩ (Except.ok (some ⟨1, 0, 0⟩)) ctxRaise =
        Except.error "Pending version is lower or equal to already published version" ∧
    check_version_raised ⟨1, 1, 0⟩ (Except.ok (some ⟨1, 0, 0⟩)) ctxRaise =
        Except.ok { ctxRaise with prev_version := some (some ⟨1, 0, 0⟩) } ∧
    check_version_raised ⟨1, 1, 0⟩ (Except.ok none) ctxRaise =
        Except.ok { ctxRaise with prev_version := some none } :=
  ⟨(check_version_raised_spec ctxRaise relRaise ⟨1, 0, 0⟩ ⟨1, 0, 0⟩ rfl rfl).1 (by decide),
   (check_version_raised_spec ctxRaise relRaise ⟨1, 1, 0⟩ ⟨1, 0, 0⟩ rfl rfl).2.1 (by decide),
   (check_version_raised_spec ctxRaise relRaise ⟨1, 1, 0⟩ ⟨1, 0, 0⟩ rfl rfl).2.2⟩

/-! ## Registry-consistency check (C7) -/

theorem publish_allowed_iff (reg : Option String) (p : Package) :
    publish_allowed reg p = true ↔
      ∀ allowed, p.publish = some allowed →
        reg.getD CRATES_IO_REGISTRY_NAME ∈ allowed := by
  cases hp : p.publish with
  | none => simp [publish_allowed, hp]
  | some l =>
    cases reg with
    | none => simp [publish_allowed, hp, Option.getD]
    | some name => simp [publish_allowed, hp, Option.getD]

theorem publish_not_allowed_iff (reg : Option String) (p : Package) :
    publish_allowed reg p = false ↔
      ∃ allowed, p.publish = some allowed ∧
        reg.getD CRATES_IO_REGISTRY_NAME ∉ allowed := by
  cases hp : p.publish with
  | none => simp [publish_allowed, hp]
  | some l =>
    cases reg with
    | none => simp [publish_allowed, hp, Option.getD]
    | some name => simp [publish_allowed, hp, Option.getD]

/-- Counterexample to C7 as stated: with a custom registry configured and
a candidate whose publish field is unset, the crates-io-equivalent
implicit allow-set named by the claim does not contain the registry name,
yet the check passes — an unset allow-set in fact permits every
registry. -/
theorem check_registry_consistency_counterexample :
    specRegistryAllowed (some "custom") pkgRoot = false ∧
    check_registry_consistency ctxCustomUnset = Except.ok () := by
  constructor
  · decide
  · rfl

/-- C7 (amended): the registry-consistency check fails exactly for those
publish candidates that declare an explicit allow-set not containing the
configured target registry name (or the default crates-io name when no
registry is configured); candidates with an unset allow-set always pass.
Each violating candidate is collected and reported, and the loop
continues to the next package. -/
theorem check_registry_consistency_spec (ctx : ReleaseContext)
    (rel : Release) (pkgs : List Package)
    (hrel : ctx.config.release = some rel)
    (hpk : ctx.packages_to_publish = Except.ok pkgs) :
    (check_registry_consistency ctx = Except.ok () ↔
      ∀ p ∈ pkgs, ∀ allowed, p.publish = some allowed →
        rel.registry.getD CRATES_IO_REGISTRY_NAME ∈ allowed) ∧
    (check_registry_consistency ctx ≠ Except.ok () →
      check_registry_consistency ctx =
        Except.error "Package registry inconsistency detected") ∧
    (∀ name, name ∈ registry_violations rel.registry pkgs ↔
      ∃ p ∈ pkgs, (∃ allowed, p.publish = some allowed ∧
        rel.registry.getD CRATES_IO_REGISTRY_NAME ∉ allowed) ∧
        full_package_name p = name) := by
  have hcfg : ctx.release_config = Except.ok rel := by
    unfold ReleaseContext.release_config
    rw [hrel]
  have hempty : (registry_violations rel.registry pkgs).isEmpty = true ↔
      ∀ p ∈ pkgs, publish_allowed rel.registry p = true := by
    unfold registry_violations
    rw [List.isEmpty_iff, List.map_eq_nil_iff, List.filter_eq_nil_iff]
    constructor
    · intro h p hp
      have := h p hp
      simpa using this
    · intro h p hp
      simp [h p hp]
  refine ⟨?_, ?_, ?_⟩
  · unfold check_registry_consistency
    simp only [hpk, hcfg, except_bind_ok]
    constructor
    · intro h p hp allowed hpub
      by_cases hviol : (registry_violations rel.registry pkgs).isEmpty
      · exact ((publish_allowed_iff rel.registry p).mp (hempty.mp hviol p hp))
          allowed hpub
      · rw [if_neg hviol] at h
        cases h
    · intro h
      rw [if_pos (hempty.mpr (fun p hp => (publish_allowed_iff rel.registry p).mpr
        (h p hp)))]
  · unfold check_registry_consistency
    simp only [hpk, hcfg, except_bind_ok]
    by_cases hviol : (registry_violations rel.registry pkgs).isEmpty
    · rw [if_pos hviol]
      intro h
      exact absurd rfl h
    · rw [if_neg hviol]
      intro _
      rfl
  · intro name
    unfold registry_violations
    rw [List.mem_map]
    constructor
    · rintro ⟨p, hp, rfl⟩
      obtain ⟨hpmem, hpred⟩ := List.mem_filter.mp hp
      refine ⟨p, hpmem, ?_, rfl⟩
      exact (publish_not_allowed_iff rel.registry p).mp (by simpa using hpred)
    · rintro ⟨p, hpmem, hbad, rfl⟩
      refine ⟨p, List.mem_filter.mpr ⟨hpmem, ?_⟩, rfl⟩
      have := (publish_not_allowed_iff rel.registry p).mpr hbad
      simp [this]

/-- Witness for C7 (amended): a candidate allowing only a foreign registry
is reported when crates-io is the target. -/
theorem check_registry_consistency_spec_witness :
    full_package_name pkgOtherRegistry ∈
      registry_violations relPlain.registry [pkgOtherRegistry] :=
  ((check_registry_consistency_spec ctxTwoFailures relPlain
      [pkgOtherRegistry] rfl rfl).2.2 (full_package_name pkgOtherRegistry)).mpr
    ⟨pkgOtherRegistry, by decide, ⟨["other-registry"], rfl, by decide⟩, rfl⟩

/-! ## Version-consistency check (C3) -/

theorem version_inconsistent_true_iff (version : Version) (wsNames : List String)
    (p : Package) :
    version_inconsistent version wsNames p = true ↔
      (p.version ≠ version ∨ ∃ d ∈ p.dependencies, d.name ∈ wsNames ∧
        d.req.matches version = false) := by
  unfold version_inconsistent
  simp [List.any_eq_true]

theorem version_inconsistent_false_iff (version : Version) (wsNames : List String)
    (p : Package) :
    version_inconsistent version wsNames p = false ↔
      (p.version = version ∧ ∀ d ∈ p.dependencies, d.name ∈ wsNames →
        d.req.matches version = true) := by
  rw [← Bool.not_eq_true, version_inconsistent_true_iff]
  constructor
  · intro h
    constructor
    · by_contra hne
      exact h (Or.inl hne)
    · intro d hd hn
      cases hm : d.req.matches version with
      | true => rfl
      | false => exact absurd (Or.inr ⟨d, hd, hn, hm⟩) h
  · rintro ⟨h1, h2⟩ hcon
    rcases hcon with hne | ⟨d, hd, hn, hm⟩
    · exact hne h1
    · rw [h2 d hd hn] at hm
      cases hm

/-- Counterexample to C3 as stated: with packages root@1.2.0 and lib@1.2.0
where lib's only in-workspace dependency is a DEVELOPMENT dependency
pinned to 1.1.0, the property the claim describes (versions equal, all
non-dev in-workspace requirements match) holds, yet the check fails and
reports lib: the code checks requirements of every dependency kind. -/
theorem check_version_consistency_counterexample :
    specVersionConsistentNonDev ⟨1, 2, 0⟩ ["root", "lib"] [pkgRoot, pkgLibDevPinned] = true ∧
    check_version_consistency ⟨1, 2, 0⟩ ctxDevPinned =
      Except.error "Detected version inconsistency in crates" ∧
    version_consistency_violations ⟨1, 2, 0⟩ ["root", "lib"] [pkgRoot, pkgLibDevPinned] =
      [full_package_name pkgLibDevPinned] := by
  refine ⟨by decide, rfl, by decide⟩

/-- C3 (amended): the version-consistency check passes iff every publish
candidate's version equals the pending version and every in-workspace
dependency requirement of ANY kind — development dependencies included —
is satisfied by the pending version; each mismatching candidate is
aggregated into the reported violation list, and the check fails exactly
when that list is non-empty. -/
theorem check_version_consistency_spec (ctx : ReleaseContext) (version : Version)
    (pkgs : List Package) (wsNames : List String)
    (hpk : ctx.packages_to_publish = Except.ok pkgs)
    (hws : ctx.workspace_package_names = Except.ok wsNames) :
    (check_version_consistency version ctx = Except.ok () ↔
      ∀ p ∈ pkgs, p.version = version ∧
        ∀ d ∈ p.dependencies, d.name ∈ wsNames → d.req.matches version = true) ∧
    (check_version_consistency version ctx ≠ Except.ok () →
      check_version_consistency version ctx =
        Except.error "Detected version inconsistency in crates") ∧
    (∀ name, name ∈ version_consistency_violations version wsNames pkgs ↔
      ∃ p ∈ pkgs, (p.version ≠ version ∨ ∃ d ∈ p.dependencies, d.name ∈ wsNames ∧
        d.req.matches version = false) ∧ full_package_name p = name) := by
  have hempty : (version_consistency_violations version wsNames pkgs).isEmpty = true ↔
      ∀ p ∈ pkgs, p.version = version ∧
        ∀ d ∈ p.dependencies, d.name ∈ wsNames → d.req.matches version = true := by
    unfold version_consistency_violations
    rw [List.isEmpty_iff, List.map_eq_nil_iff, List.filter_eq_nil_iff]
    constructor
    · intro h p hp
      exact (version_inconsistent_false_iff version wsNames p).mp
        (by simpa using h p hp)
    · intro h p hp
      simp [(version_inconsistent_false_iff version wsNames p).mpr (h p hp)]
  refine ⟨?_, ?_, ?_⟩
  · unfold check_version_consistency
    simp only [hpk, hws, except_bind_ok]
    constructor
    · intro h
      by_cases hviol : (version_consistency_violations version wsNames pkgs).isEmpty
      · exact hempty.mp hviol
      · rw [if_neg hviol] at h
        cases h
    · intro h
      rw [if_pos (hempty.mpr h)]
  · unfold check_version_consistency
    simp only [hpk, hws, except_bind_ok]
    by_cases hviol : (version_consistency_violations version wsNames pkgs).isEmpty
    · rw [if_pos hviol]
      intro h
      exact absurd rfl h
    · rw [if_neg hviol]
      intro _
      rfl
  · intro name
    unfold version_consistency_violations
    rw [List.mem_map]
    constructor
    · rintro ⟨p, hp, rfl⟩
      obtain ⟨hpmem, hpred⟩ := List.mem_filter.mp hp
      exact ⟨p, hpmem, (version_inconsistent_true_iff version wsNames p).mp hpred, rfl⟩
    · rintro ⟨p, hpmem, hbad, rfl⟩
      exact ⟨p, List.mem_filter.mpr
        ⟨hpmem, (version_inconsistent_true_iff version wsNames p).mpr hbad⟩, rfl⟩

/-- Witness for C3 (amended): the pinned development dependency makes lib
a reported violation. -/
theorem check_version_consistency_spec_witness :
    full_package_name pkgLibDevPinned ∈
      version_consistency_violations ⟨1, 2, 0⟩ ["root", "lib"] [pkgRoot, pkgLibDevPinned] :=
  ((check_version_consistency_spec ctxDevPinned ⟨1, 2, 0⟩ [pkgRoot, pkgLibDevPinned]
      ["root", "lib"] rfl rfl).2.2 (full_package_name pkgLibDevPinned)).mpr
    ⟨pkgLibDevPinned, by decide,
     Or.inr ⟨depDevPinned, by decide, by decide, by decide⟩, rfl⟩

/-! ## Execution of the validation step (C2) -/

/-- Counterexample to C2: a context on which both the registry check and
the version-consistency check fail; execute reports only the registry
diagnostic — the later checks are never reached, so their diagnostics are
not collected. -/
theorem vaidate_version_execute_counterexample :
    check_registry_consistency ctxTwoFailures =
        Except.error "Package registry inconsistency detected" ∧
    check_version_consistency ⟨2, 0, 0⟩ ctxTwoFailures =
        Except.error "Detected version inconsistency in crates" ∧
    VaidateVersion.execute (Except.ok none) ctxTwoFailures =
        Except.error "Package registry inconsistency detected" :=
  ⟨rfl, rfl, rfl⟩

/-- C2 (amended): VaidateVersion::execute runs the four checks strictly in
the order registry-consistency, version-raise, dev-dependency,
version-consistency, each behind the question-mark operator, and aborts at
the first check that fails with exactly that check's error — the result is
determined by the first failure, whatever the later checks would return:
if registry-consistency fails, its error is reported; if it passes and
version-raise fails, the raise error is reported; if raise passes
(threading its updated context) and the dev-dependency check fails, the
dev error is reported; if that passes too and version-consistency fails,
the consistency error is reported; when all four pass, execute returns the
raise-updated context.  Consequently execute succeeds exactly when all
four checks pass in sequence. -/
theorem vaidate_version_execute_spec (ctx : ReleaseContext) (version : Version)
    (query : Except String (Option Version))
    (hver : ctx.version = some version) :
    (∀ e, check_registry_consistency ctx = Except.error e →
      VaidateVersion.execute query ctx = Except.error e) ∧
    (∀ e, check_registry_consistency ctx = Except.ok () →
      check_version_raised version query ctx = Except.error e →
      VaidateVersion.execute query ctx = Except.error e) ∧
    (∀ ctx2 e, check_registry_consistency ctx = Except.ok () →
      check_version_raised version query ctx = Except.ok ctx2 →
      check_dev_dependencies ctx2 = Except.error e →
      VaidateVersion.execute query ctx = Except.error e) ∧
    (∀ ctx2 e, check_registry_consistency ctx = Except.ok () →
      check_version_raised version query ctx = Except.ok ctx2 →
      check_dev_dependencies ctx2 = Except.ok () →
      check_version_consistency version ctx2 = Except.error e →
      VaidateVersion.execute query ctx = Except.error e) ∧
    (∀ ctx2, check_registry_consistency ctx = Except.ok () →
      check_version_raised version query ctx = Except.ok ctx2 →
      check_dev_dependencies ctx2 = Except.ok () →
      check_version_consistency version ctx2 = Except.ok () →
      VaidateVersion.execute query ctx = Except.ok ctx2) ∧
    ((∃ ctx', VaidateVersion.execute query ctx = Except.ok ctx') ↔
      (check_registry_consistency ctx = Except.ok () ∧
       ∃ ctx2, check_version_raised version query ctx = Except.ok ctx2 ∧
         check_dev_dependencies ctx2 = Except.ok () ∧
         check_version_consistency version ctx2 = Except.ok ())) := by
  have hv' : ctx.version' = Except.ok version := by
    unfold ReleaseContext.version'
    rw [hver]
  refine ⟨?_, ?_, ?_, ?_, ?_, ?_⟩
  · intro e he
    simp [VaidateVersion.execute, hv', he]
  · intro e hreg he
    simp [VaidateVersion.execute, hv', hreg, he]
  · intro ctx2 e hreg hvr he
    simp [VaidateVersion.execute, hv', hreg, hvr, he]
  · intro ctx2 e hreg hvr hdev he
    simp [VaidateVersion.execute, hv', hreg, hvr, hdev, he]
  · intro ctx2 hreg hvr hdev hcon
    simp [VaidateVersion.execute, hv', hreg, hvr, hdev, hcon]
  · constructor
    · rintro ⟨ctx', hex⟩
      simp only [VaidateVersion.execute, hv', except_bind_ok] at hex
      cases hreg : check_registry_consistency ctx with
      | error e => simp [hreg] at hex
      | ok u =>
        cases u
        simp only [hreg, except_bind_ok] at hex
        cases hvr : check_version_raised version query ctx with
        | error e => simp [hvr] at hex
        | ok ctx2 =>
          simp only [hvr, except_bind_ok] at hex
          cases hdev : check_dev_dependencies ctx2 with
          | error e => simp [hdev] at hex
          | ok u2 =>
            cases u2
            simp only [hdev, except_bind_ok] at hex
            cases hcon : check_version_consistency version ctx2 with
            | error e => simp [hcon] at hex
            | ok u3 =>
              cases u3
              exact ⟨rfl, ctx2, rfl, hdev, hcon⟩
    · rintro ⟨hreg, ctx2, hvr, hdev, hcon⟩
      exact ⟨ctx2, by simp [VaidateVersion.execute, hv', hreg, hvr, hdev, hcon]⟩

/-- Witness for C2 (amended): on a context where every check passes,
execute returns exactly the context threaded out of the version-raise
check. -/
theorem vaidate_version_execute_spec_witness :
    ctxCustomUnset.version = some ⟨1, 2, 0⟩ ∧
    VaidateVersion.execute (Except.ok none) ctxCustomUnset = Except.ok ctxCustomUnset :=
  ⟨rfl, (vaidate_version_execute_spec ctxCustomUnset ⟨1, 2, 0⟩ (Except.ok none)
      rfl).2.2.2.2.1 ctxCustomUnset rfl rfl rfl rfl⟩

/-! ## Publish candidates and their order (C4) -/

theorem ordered_map_id (pkgs : List Package) (sorted : List PkgId) :
    (sorted.filterMap fun s => pkgs.find? (fun p => p.id == s)).map Package.id =
      sorted.filter (fun s => pkgs.any (fun p => p.id == s)) := by
  induction sorted with
  | nil => rfl
  | cons s rest ih =>
    rw [List.filterMap_cons, List.filter_cons]
    cases hfind : pkgs.find? (fun p => p.id == s) with
    | none =>
      have hany : pkgs.any (fun p => p.id == s) = false := by
        rw [List.any_eq_false]
        intro p hp
        simpa using List.find?_eq_none.mp hfind p hp
      simp [hany, ih]
    | some q =>
      have hqs : q.id = s := by simpa using List.find?_some hfind
      have hany : pkgs.any (fun p => p.id == s) = true :=
        List.any_eq_true.mpr ⟨q, List.mem_of_find?_eq_some hfind,
          by simpa using hqs⟩
      simp [hany, ih, hqs]

/-- C4: a package is a publish candidate iff it is a workspace member and
its publish field is unset or a non-empty allow-set; a package with an
explicit empty allow-set is never a candidate; and the ordered publish
list is exactly the dependency sort restricted to candidate ids, so
remaining candidates keep their relative order. -/
theorem packages_to_publish_spec (ctx : ReleaseContext) (md : Metadata)
    (pkgs : List Package)
    (hmd : ctx.metadata = some md)
    (hpk : ctx.packages_to_publish = Except.ok pkgs) :
    (∀ p, p ∈ pkgs ↔ p ∈ md.packages ∧ p.id ∈ md.workspace_members ∧
      (p.publish = none ∨ ∃ l, p.publish = some l ∧ l ≠ [])) ∧
    (∀ p, p.publish = some [] → p ∉ pkgs) ∧
    (∀ sorted ordered, sort_workspace md = some sorted →
      ctx.ordered_packages_to_publish = Except.ok ordered →
      ordered.map Package.id = sorted.filter (fun s => pkgs.any (fun p => p.id == s))) := by
  have hmeta : ctx.cargo_metadata = Except.ok md := by
    unfold ReleaseContext.cargo_metadata
    rw [hmd]
  have hpkgs_eq : pkgs = md.packages.filter (fun p =>
      md.workspace_members.contains p.id &&
        (match p.publish with
         | none => true
         | some r => !r.isEmpty)) := by
    have hcalc : ctx.packages_to_publish = Except.ok (md.packages.filter (fun p =>
        md.workspace_members.contains p.id &&
          (match p.publish with
           | none => true
           | some r => !r.isEmpty))) := by
      unfold ReleaseContext.packages_to_publish
      rw [hmeta]
      rfl
    rw [hpk] at hcalc
    exact (Except.ok.inj hcalc)
  have hchar : ∀ p, p ∈ pkgs ↔ p ∈ md.packages ∧ p.id ∈ md.workspace_members ∧
      (p.publish = none ∨ ∃ l, p.publish = some l ∧ l ≠ []) := by
    intro p
    rw [hpkgs_eq, List.mem_filter]
    constructor
    · rintro ⟨hmem, hcond⟩
      rw [Bool.and_eq_true] at hcond
      obtain ⟨hc, hpub⟩ := hcond
      refine ⟨hmem, by simpa using hc, ?_⟩
      cases hp : p.publish with
      | none => exact Or.inl rfl
      | some l =>
        rw [hp] at hpub
        exact Or.inr ⟨l, rfl, by simpa using hpub⟩
    · rintro ⟨hmem, hc, hpub⟩
      refine ⟨hmem, ?_⟩
      rw [Bool.and_eq_true]
      refine ⟨by simpa using hc, ?_⟩
      rcases hpub with hp | ⟨l, hp, hne⟩
      · rw [hp]
      · rw [hp]
        simpa using hne
  refine ⟨hchar, ?_, ?_⟩
  · intro p hp hmem
    rcases ((hchar p).mp hmem).2.2 with hnone | ⟨l, hsome, hne⟩
    · rw [hp] at hnone
      cases hnone
    · rw [hp] at hsome
      exact hne (Option.some.inj hsome).symm
  · intro sorted ordered hsort hord
    unfold ReleaseContext.ordered_packages_to_publish at hord
    rw [hmeta] at hord
    simp only [except_bind_ok, hsort, hpk] at hord
    obtain rfl := Except.ok.inj hord
    exact ordered_map_id pkgs sorted

/-- Witness for C4: the package with an explicit empty allow-set is not a
publish candidate of its workspace. -/
theorem packages_to_publish_spec_witness : pkgInternal ∉ [pkgRoot] :=
  (packages_to_publish_spec ctxCandidates mdCandidates [pkgRoot] rfl rfl).2.1
    pkgInternal rfl

/-! ## Configuration validation (C8) -/

/-- C8: when the release configuration declares a custom registry and the
version-raise check is enabled, the run aborts during configuration
validation with no pipeline step executed (no effects, and the pipeline is
never built or run). -/
theorem config_custom_registry_raise_aborts (cfg : Config) (rel : Release)
    (hrel : cfg.release = some rel)
    (hreg : rel.registry.isSome = true)
    (hraise : rel.check_version_raised = true)
    (confirm nopublish : Bool) (ext : Ext) :
    run cfg confirm nopublish ext =
      (Except.error "Querying last released version is not yet supported for custom registries, set release.check_version_raised to false in the config to approve skip of this step",
       []) := by
  have hval : cfg.validate_release = Except.error "Querying last released version is not yet supported for custom registries, set release.check_version_raised to false in the config to approve skip of this step" := by
    unfold Config.validate_release
    simp only [hrel]
    rw [if_pos (by rw [hreg, hraise]; rfl)]
  have hv : cfg.validate = Except.error "Querying last released version is not yet supported for custom registries, set release.check_version_raised to false in the config to approve skip of this step" := by
    unfold Config.validate
    simp [hval]
  unfold run
  simp [hv]

/-- Witness for C8 at a concrete configuration with a custom registry and
the version-raise check enabled. -/
theorem config_custom_registry_raise_aborts_witness :
    run cfgCustomRaise false false extNoop =
      (Except.error "Querying last released version is not yet supported for custom registries, set release.check_version_raised to false in the config to approve skip of this step",
       []) :=
  config_custom_registry_raise_aborts cfgCustomRaise relCustomRaise rfl rfl rfl
    false false extNoop

/-! ## Step pipeline lemmas (C6) -/

theorem execInit_preserves_dry_run (ctx : ReleaseContext) (ext : Ext)
    (ctx' : ReleaseContext) (h : (execInit ctx ext).1 = Except.ok ctx') :
    ctx'.dry_run = ctx.dry_run := by
  obtain ⟨dr, np, cfg, cio, ght, cc, mdo, ver, pv, cl, arts, tag, gc⟩ := ctx
  unfold execInit ReleaseContext.release_config at h
  simp only [except_bind_def] at h
  repeat' split at h
  all_goals first
    | (obtain rfl := Except.ok.inj h; rfl)
    | simp at h

theorem publishDryLoop_ok (ctx : ReleaseContext) (ext : Ext) :
    ∀ ps ctx', (publishDryLoop ctx ext ps).1 = Except.ok ctx' → ctx' = ctx := by
  intro ps
  induction ps with
  | nil =>
    intro ctx' h
    exact (Except.ok.inj h).symm
  | cons p ps ih =>
    intro ctx' h
    unfold publishDryLoop at h
    repeat' split at h
    · exact ih ctx' h
    · rename_i heq
      apply ih ctx'
      rw [heq]
      exact h
    · simp at h

theorem publishRealLoop_ok (ctx : ReleaseContext) (ext : Ext) :
    ∀ ps ctx', (publishRealLoop ctx ext ps).1 = Except.ok ctx' → ctx' = ctx := by
  intro ps
  induction ps with
  | nil =>
    intro ctx' h
    exact (Except.ok.inj h).symm
  | cons p ps ih =>
    intro ctx' h
    unfold publishRealLoop at h
    repeat' split at h
    · rename_i heq
      apply ih ctx'
      rw [heq]
      exact h
    · simp at h

theorem uploadLoop_ok (ctx : ReleaseContext) (ext : Ext) :
    ∀ fs ctx', (uploadLoop ctx ext fs).1 = Except.ok ctx' → ctx' = ctx := by
  intro fs
  induction fs with
  | nil =>
    intro ctx' h
    exact (Except.ok.inj h).symm
  | cons f fs ih =>
    intro ctx' h
    unfold uploadLoop at h
    repeat' split at h
    · rename_i heq
      apply ih ctx'
      rw [heq]
      exact h
    · simp at h

theorem check_version_raised_preserves_dry_run (version : Version)
    (query : Except String (Option Version)) (ctx ctx' : ReleaseContext)
    (h : check_version_raised version query ctx = Except.ok ctx') :
    ctx'.dry_run = ctx.dry_run := by
  obtain ⟨dr, np, cfg, cio, ght, cc, mdo, ver, pv, cl, arts, tag, gc⟩ := ctx
  unfold check_version_raised ReleaseContext.release_config at h
  simp only [except_bind_def] at h
  repeat' split at h
  all_goals first
    | (obtain rfl := Except.ok.inj h; rfl)
    | simp at h

theorem stepExec_preserves_dry_run (s : Step) (ctx : ReleaseContext) (ext : Ext)
    (ctx' : ReleaseContext) (h : (stepExec s ctx ext).1 = Except.ok ctx') :
    ctx'.dry_run = ctx.dry_run := by
  cases s with
  | init => exact execInit_preserves_dry_run ctx ext ctx' h
  | collectArtifacts =>
    replace h : (execCollectArtifacts ctx ext).1 = Except.ok ctx' := h
    obtain ⟨dr, np, cfg, cio, ght, cc, mdo, ver, pv, cl, arts, tag, gc⟩ := ctx
    unfold execCollectArtifacts ReleaseContext.artifacts_config at h
    simp only [except_bind_def] at h
    repeat' split at h
    all_goals first
      | (obtain rfl := Except.ok.inj h; rfl)
      | simp at h
  | captureChangelog =>
    replace h : (execCaptureChangelog ctx ext).1 = Except.ok ctx' := h
    obtain ⟨dr, np, cfg, cio, ght, cc, mdo, ver, pv, cl, arts, tag, gc⟩ := ctx
    unfold execCaptureChangelog ReleaseContext.changelog_config at h
    simp only [except_bind_def] at h
    repeat' split at h
    all_goals first
      | (obtain rfl := Except.ok.inj h; rfl)
      | simp at h
  | validateCommitPushed =>
    replace h : (execValidateCommitPushed ctx ext).1 = Except.ok ctx' := h
    obtain ⟨dr, np, cfg, cio, ght, cc, mdo, ver, pv, cl, arts, tag, gc⟩ := ctx
    unfold execValidateCommitPushed ReleaseContext.github_config
      ReleaseContext.current_commit' ReleaseContext.github_client' at h
    simp only [except_bind_def] at h
    repeat' split at h
    all_goals first
      | (obtain rfl := Except.ok.inj h; rfl)
      | simp at h
  | vaidateVersion =>
    replace h : VaidateVersion.execute ext.queryVersion ctx = Except.ok ctx' := h
    simp only [VaidateVersion.execute] at h
    cases hver : ctx.version' with
    | error e => simp [hver] at h
    | ok version =>
      simp only [hver, except_bind_ok] at h
      cases hreg : check_registry_consistency ctx with
      | error e => simp [hreg] at h
      | ok u =>
        cases u
        simp only [hreg, except_bind_ok] at h
        cases hvr : check_version_raised version ext.queryVersion ctx with
        | error e => simp [hvr] at h
        | ok ctx2 =>
          simp only [hvr, except_bind_ok] at h
          cases hdev : check_dev_dependencies ctx2 with
          | error e => simp [hdev] at h
          | ok u2 =>
            cases u2
            simp only [hdev, except_bind_ok] at h
            cases hcon : check_version_consistency version ctx2 with
            | error e => simp [hcon] at h
            | ok u3 =>
              cases u3
              simp only [hcon, except_bind_ok] at h
              obtain rfl := Except.ok.inj h
              exact check_version_raised_preserves_dry_run version ext.queryVersion
                ctx _ hvr
  | cargoPublishValidate =>
    replace h : (execCargoPublish true ctx ext).1 = Except.ok ctx' := h
    unfold execCargoPublish at h
    repeat' split at h
    all_goals first
      | (exact congrArg ReleaseContext.dry_run (publishDryLoop_ok ctx ext _ ctx' h))
      | (exact congrArg ReleaseContext.dry_run (publishRealLoop_ok ctx ext _ ctx' h))
      | simp at h
  | cargoPublishReal =>
    replace h : (execCargoPublish false ctx ext).1 = Except.ok ctx' := h
    unfold execCargoPublish at h
    repeat' split at h
    all_goals first
      | (exact congrArg ReleaseContext.dry_run (publishDryLoop_ok ctx ext _ ctx' h))
      | (exact congrArg ReleaseContext.dry_run (publishRealLoop_ok ctx ext _ ctx' h))
      | simp at h
  | createTagOnGithub =>
    replace h : (execCreateTag ctx ext).1 = Except.ok ctx' := h
    obtain ⟨dr, np, cfg, cio, ght, cc, mdo, ver, pv, cl, arts, tag, gc⟩ := ctx
    unfold execCreateTag ReleaseContext.version'
      ReleaseContext.release_github_config ReleaseContext.release_config
      ReleaseContext.github_config ReleaseContext.current_commit'
      ReleaseContext.github_client' at h
    simp only [except_bind_def] at h
    repeat' split at h
    all_goals first
      | (obtain rfl := Except.ok.inj h; rfl)
      | simp at h
  | createGithubRelease =>
    replace h : (execCreateRelease ctx ext).1 = Except.ok ctx' := h
    obtain ⟨dr, np, cfg, cio, ght, cc, mdo, ver, pv, cl, arts, tag, gc⟩ := ctx
    unfold execCreateRelease ReleaseContext.version'
      ReleaseContext.release_github_config ReleaseContext.release_config
      ReleaseContext.github_config ReleaseContext.github_release_tag'
      ReleaseContext.github_client' ReleaseContext.artifacts' at h
    simp only [except_bind_def] at h
    repeat' split at h
    all_goals first
      | (obtain rfl := Except.ok.inj h; rfl)
      | (exact congrArg ReleaseContext.dry_run (uploadLoop_ok _ ext _ ctx' h))
      | simp at h

theorem publishDryLoop_effects (ctx : ReleaseContext) (ext : Ext) :
    ∀ ps eff, eff ∈ (publishDryLoop ctx ext ps).2 →
      ∃ mp, eff = Effect.cargoPublish mp true := by
  intro ps
  induction ps with
  | nil =>
    intro eff he
    simp [publishDryLoop] at he
  | cons p ps ih =>
    intro eff he
    unfold publishDryLoop at he
    split at he
    · exact ih eff he
    · split at he
      · split at he
        rename_i res effs heq
        rcases List.mem_cons.mp he with rfl | he'
        · exact ⟨p.manifest_path, rfl⟩
        · exact ih eff (by rw [heq]; exact he')
      · rw [List.mem_singleton] at he
        exact ⟨p.manifest_path, he⟩

theorem stepExec_dry_effects (s : Step) (ctx : ReleaseContext) (ext : Ext)
    (hdr : ctx.dry_run = true) :
    ∀ eff ∈ (stepExec s ctx ext).2, isForbiddenInDryRun eff = false := by
  cases s with
  | init => intro eff he; simp [stepExec, execInit] at he
  | collectArtifacts => intro eff he; simp [stepExec, execCollectArtifacts] at he
  | captureChangelog => intro eff he; simp [stepExec, execCaptureChangelog] at he
  | validateCommitPushed => intro eff he; simp [stepExec, execValidateCommitPushed] at he
  | vaidateVersion => intro eff he; simp [stepExec] at he
  | cargoPublishValidate =>
    intro eff he
    replace he : eff ∈ (execCargoPublish true ctx ext).2 := he
    unfold execCargoPublish at he
    simp only [hdr, Bool.not_true, Bool.and_false, Bool.true_or] at he
    rw [if_neg (by simp)] at he
    split at he
    · simp at he
    · split at he
      · simp at he
      · rw [if_pos trivial] at he
        obtain ⟨mp, rfl⟩ := publishDryLoop_effects ctx ext _ eff he
        rfl
  | cargoPublishReal =>
    intro eff he
    replace he : eff ∈ (execCargoPublish false ctx ext).2 := he
    unfold execCargoPublish at he
    simp only [hdr, Bool.not_false, Bool.and_true] at he
    rw [if_pos trivial] at he
    simp at he
  | createTagOnGithub =>
    intro eff he
    replace he : eff ∈ (execCreateTag ctx ext).2 := he
    unfold execCreateTag at he
    split at he
    · simp at he
    · simp only [hdr] at he
      rw [if_pos trivial] at he
      simp at he
  | createGithubRelease =>
    intro eff he
    replace he : eff ∈ (execCreateRelease ctx ext).2 := he
    unfold execCreateRelease at he
    split at he
    · simp at he
    · simp only [hdr] at he
      rw [if_pos trivial] at he
      simp at he

theorem runSteps_dry_effects (ext : Ext) :
    ∀ steps (ctx : ReleaseContext), ctx.dry_run = true →
      ∀ eff ∈ (runSteps ext steps ctx).2, isForbiddenInDryRun eff = false := by
  intro steps
  induction steps with
  | nil =>
    intro ctx hdr eff he
    simp [runSteps] at he
  | cons s ss ih =>
    intro ctx hdr eff he
    unfold runSteps at he
    split at he
    · rename_i e effs heq
      apply stepExec_dry_effects s ctx ext hdr eff
      rw [heq]
      exact he
    · rename_i ctx2 effs heq
      split at he
      rename_i res effs' heq2
      rcases List.mem_append.mp he with he' | he'
      · apply stepExec_dry_effects s ctx ext hdr eff
        rw [heq]
        exact he'
      · have hdr2 : ctx2.dry_run = true := by
          rw [stepExec_preserves_dry_run s ctx ext ctx2 (by rw [heq])]
          exact hdr
        exact ih ctx2 hdr2 eff (by rw [heq2]; exact he')

theorem execInit_result_parity (ctx : ReleaseContext) (ext : Ext) (b1 b2 : Bool) :
    stepResult Step.init { ctx with dry_run := b1 } ext =
      stepResult Step.init { ctx with dry_run := b2 } ext := by
  obtain ⟨dr, np, cfg, cio, ght, cc, mdo, ver, pv, cl, arts, tag, gc⟩ := ctx
  unfold stepResult stepExec execInit ReleaseContext.release_config
    ReleaseContext.root_crate_name
  simp only [except_bind_def]
  repeat' split
  all_goals rfl

theorem publishDryLoop_result_unit (ext : Ext) :
    ∀ ps (ctx1 ctx2 : ReleaseContext),
      ((publishDryLoop ctx1 ext ps).1).map (fun _ => ()) =
        ((publishDryLoop ctx2 ext ps).1).map (fun _ => ()) := by
  intro ps
  induction ps with
  | nil => intro ctx1 ctx2; rfl
  | cons p ps ih =>
    intro ctx1 ctx2
    unfold publishDryLoop
    by_cases hbin : (p.targets.any fun kinds => kinds.contains "bin") = true
    · rw [if_pos hbin, if_pos hbin]
      exact ih ctx1 ctx2
    · rw [if_neg hbin, if_neg hbin]
      by_cases hpub : ext.publishResult p.manifest_path true = true
      · rw [if_pos hpub, if_pos hpub]
        have hres := ih ctx1 ctx2
        cases h1 : publishDryLoop ctx1 ext ps with
        | mk res1 effs1 =>
          cases h2 : publishDryLoop ctx2 ext ps with
          | mk res2 effs2 =>
            rw [h1, h2] at hres
            simp only [h1, h2]
            exact hres
      · rw [if_neg hpub, if_neg hpub]

theorem check_registry_consistency_dry_run (ctx : ReleaseContext) (b : Bool) :
    check_registry_consistency { ctx with dry_run := b } =
      check_registry_consistency ctx := by
  obtain ⟨dr, np, cfg, cio, ght, cc, mdo, ver, pv, cl, arts, tag, gc⟩ := ctx
  unfold check_registry_consistency ReleaseContext.packages_to_publish
    ReleaseContext.cargo_metadata ReleaseContext.release_config
  simp only [except_bind_def]

theorem check_dev_dependencies_dry_run (ctx : ReleaseContext) (b : Bool) :
    check_dev_dependencies { ctx with dry_run := b } =
      check_dev_dependencies ctx := by
  obtain ⟨dr, np, cfg, cio, ght, cc, mdo, ver, pv, cl, arts, tag, gc⟩ := ctx
  unfold check_dev_dependencies ReleaseContext.packages_to_publish
    ReleaseContext.workspace_package_names ReleaseContext.cargo_metadata
    ReleaseContext.release_config
  simp only [except_bind_def]

theorem check_version_consistency_dry_run (version : Version) (ctx : ReleaseContext)
    (b : Bool) :
    check_version_consistency version { ctx with dry_run := b } =
      check_version_consistency version ctx := by
  obtain ⟨dr, np, cfg, cio, ght, cc, mdo, ver, pv, cl, arts, tag, gc⟩ := ctx
  unfold check_version_consistency ReleaseContext.packages_to_publish
    ReleaseContext.workspace_package_names ReleaseContext.cargo_metadata
  simp only [except_bind_def]

theorem check_version_raised_dry_run (version : Version)
    (query : Except String (Option Version)) (ctx : ReleaseContext) (b : Bool) :
    check_version_raised version query { ctx with dry_run := b } =
      Except.map (fun c => { c with dry_run := b })
        (check_version_raised version query ctx) := by
  obtain ⟨dr, np, cfg, cio, ght, cc, mdo, ver, pv, cl, arts, tag, gc⟩ := ctx
  unfold check_version_raised ReleaseContext.release_config
  simp only [except_bind_def]
  repeat' split
  all_goals rfl

theorem release_config_dry_run (ctx : ReleaseContext) (b : Bool) :
    ReleaseContext.release_config { ctx with dry_run := b } =
      ctx.release_config := rfl

theorem ordered_packages_dry_run (ctx : ReleaseContext) (b : Bool) :
    ReleaseContext.ordered_packages_to_publish { ctx with dry_run := b } =
      ctx.ordered_packages_to_publish := by
  obtain ⟨dr, np, cfg, cio, ght, cc, mdo, ver, pv, cl, arts, tag, gc⟩ := ctx
  simp only [ReleaseContext.ordered_packages_to_publish,
    ReleaseContext.packages_to_publish, ReleaseContext.cargo_metadata,
    except_bind_def]

theorem vaidate_execute_dry_run_map (query : Except String (Option Version))
    (ctx : ReleaseContext) (b : Bool) :
    VaidateVersion.execute query { ctx with dry_run := b } =
      Except.map (fun c => { c with dry_run := b })
        (VaidateVersion.execute query ctx) := by
  simp only [VaidateVersion.execute]
  have hver : ReleaseContext.version' { ctx with dry_run := b } = ctx.version' := rfl
  rw [hver]
  cases hv : ctx.version' with
  | error e => rfl
  | ok version =>
    simp only [except_bind_ok]
    rw [check_registry_consistency_dry_run]
    cases hreg : check_registry_consistency ctx with
    | error e => rfl
    | ok u =>
      cases u
      simp only [except_bind_ok]
      rw [check_version_raised_dry_run]
      cases hvr : check_version_raised version query ctx with
      | error e => rfl
      | ok ctx2 =>
        simp only [Except.map, except_bind_ok]
        rw [check_dev_dependencies_dry_run]
        cases hdev : check_dev_dependencies ctx2 with
        | error e => rfl
        | ok u2 =>
          cases u2
          simp only [except_bind_ok]
          rw [check_version_consistency_dry_run]
          cases hcon : check_version_consistency version ctx2 with
          | error e => rfl
          | ok u3 =>
            cases u3
            rfl

/-- Validation steps reach the same pass/fail outcome whatever the value
of the dry-run flag. -/
theorem stepResult_dry_run_independent (s : Step) (hval : isValidationStep s = true)
    (ctx : ReleaseContext) (ext : Ext) (b1 b2 : Bool) :
    stepResult s { ctx with dry_run := b1 } ext =
      stepResult s { ctx with dry_run := b2 } ext := by
  cases s with
  | init => exact execInit_result_parity ctx ext b1 b2
  | collectArtifacts =>
    obtain ⟨dr, np, cfg, cio, ght, cc, mdo, ver, pv, cl, arts, tag, gc⟩ := ctx
    unfold stepResult stepExec execCollectArtifacts ReleaseContext.artifacts_config
    simp only [except_bind_def]
    repeat' split
    all_goals rfl
  | captureChangelog =>
    obtain ⟨dr, np, cfg, cio, ght, cc, mdo, ver, pv, cl, arts, tag, gc⟩ := ctx
    unfold stepResult stepExec execCaptureChangelog ReleaseContext.changelog_config
    simp only [except_bind_def]
    repeat' split
    all_goals rfl
  | validateCommitPushed =>
    obtain ⟨dr, np, cfg, cio, ght, cc, mdo, ver, pv, cl, arts, tag, gc⟩ := ctx
    unfold stepResult stepExec execValidateCommitPushed ReleaseContext.github_config
      ReleaseContext.current_commit' ReleaseContext.github_client'
    simp only [except_bind_def]
    repeat' split
    all_goals first | rfl | simp_all
  | vaidateVersion =>
    unfold stepResult stepExec
    rw [vaidate_execute_dry_run_map ext.queryVersion ctx b1,
      vaidate_execute_dry_run_map ext.queryVersion ctx b2]
    cases VaidateVersion.execute ext.queryVersion ctx <;> rfl
  | cargoPublishValidate =>
    unfold stepResult stepExec execCargoPublish
    simp only [Bool.not_true, Bool.and_false, Bool.or_true,
      ordered_packages_dry_run, release_config_dry_run]
    repeat' split
    all_goals first
      | rfl
      | (apply publishDryLoop_result_unit)
      | simp_all
  | cargoPublishReal => cases hval
  | createTagOnGithub => cases hval
  | createGithubRelease => cases hval

theorem build_steps_dry_no_real (cfg : Config) (np : Bool) (steps : List Step)
    (h : build_steps cfg true np = Except.ok steps) :
    Step.cargoPublishReal ∉ steps := by
  cases hrel : cfg.release with
  | none =>
    unfold build_steps at h
    simp only [hrel, except_bind_def] at h
    simp at h
  | some rel =>
    unfold build_steps at h
    simp only [hrel, except_bind_def] at h
    obtain rfl := Except.ok.inj h
    intro hmem
    simp only [List.mem_append] at hmem
    repeat' split at hmem
    all_goals simp_all

theorem build_steps_validation_parity (cfg : Config) (np np' : Bool)
    (steps steps' : List Step)
    (h : build_steps cfg true np = Except.ok steps)
    (h' : build_steps cfg false np' = Except.ok steps') :
    steps.filter isValidationStep = steps'.filter isValidationStep := by
  cases hrel : cfg.release with
  | none =>
    unfold build_steps at h
    simp only [hrel, except_bind_def] at h
    simp at h
  | some rel =>
    unfold build_steps at h h'
    simp only [hrel, except_bind_def] at h h'
    obtain rfl := Except.ok.inj h
    obtain rfl := Except.ok.inj h'
    cases np' <;> simp [List.filter_append, isValidationStep]

/-- C6: with dry-run set, the real publish step is never assembled into
the pipeline and running the assembled pipeline performs no real publish,
no tag creation, no release-page creation and no asset upload; the
pipeline contains the same validation steps as a non-dry-run pipeline,
and every validation step reaches the same pass/fail outcome as it would
with dry-run cleared. -/
theorem dry_run_spec (cfg : Config) (np np' : Bool) (ext : Ext) :
    (∀ steps, build_steps cfg true np = Except.ok steps →
      Step.cargoPublishReal ∉ steps ∧
      ∀ eff ∈ (runSteps ext steps (ReleaseContext.new cfg true np)).2,
        isForbiddenInDryRun eff = false) ∧
    (∀ steps steps', build_steps cfg true np = Except.ok steps →
      build_steps cfg false np' = Except.ok steps' →
      steps.filter isValidationStep = steps'.filter isValidationStep) ∧
    (∀ s, isValidationStep s = true → ∀ ctx : ReleaseContext,
      stepResult s { ctx with dry_run := true } ext =
        stepResult s { ctx with dry_run := false } ext) := by
  refine ⟨?_, ?_, ?_⟩
  · intro steps h
    exact ⟨build_steps_dry_no_real cfg np steps h,
      runSteps_dry_effects ext steps (ReleaseContext.new cfg true np) rfl⟩
  · intro steps steps' h h'
    exact build_steps_validation_parity cfg np np' steps steps' h h'
  · intro s hs ctx
    exact stepResult_dry_run_independent s hs ctx ext true false

/-- Witness for C6: in the fully configured workspace, the dry-run
pipeline contains the tag and release steps but not the real publish
step. -/
theorem dry_run_spec_witness :
    Step.cargoPublishReal ∉
      [Step.init, Step.collectArtifacts, Step.validateCommitPushed,
       Step.vaidateVersion, Step.cargoPublishValidate, Step.createTagOnGithub,
       Step.createGithubRelease] :=
  ((dry_run_spec cfgFull false false extNoop).1
    [Step.init, Step.collectArtifacts, Step.validateCommitPushed,
     Step.vaidateVersion, Step.cargoPublishValidate, Step.createTagOnGithub,
     Step.createGithubRelease] rfl).1

end CargoMonorepo
